import Mathlib

/-!
# Verification of the mpm resolution-and-fetch pipeline

Shallow embedding of the parts of github.com/storrealbac/mpm that the
specification's testable properties talk about:

* `internal/cmd/uninstall.go` — `normalizePluginName`
* `internal/server/downloader.go` / `internal/sources/*.go` — catalog
  clients (`SearchProjects`, `GetProject`, `GetProjectVersions`) and the
  compatibility checks `ModrinthIsPluginCompatible`,
  `HangarIsPluginCompatible`, `mapServerTypeToPlatform`
* `internal/cmd/install.go` — version selection in `installFromPackage`,
  the download functions `downloadFileModrinth` / `downloadFileHangar`,
  and the semaphore-bounded download coordinator.

Go strings are modelled as Lean `String` (or `List Char` where the code
iterates runes), byte streams as `List Nat`, the filesystem as an
association list from paths to byte lists, and Go maps as association
lists with last-write-wins update.  Library calls that are external to
the repository (the SHA-256/SHA-512 hex digest, the HTTP transport, the
success/failure of individual file-system syscalls) are parameters of
the model: the code under verification only ever compares their results.
-/

namespace Mpm

/-! ## Characters and case folding

`internal/cmd/uninstall.go`, `normalizePluginName`: Go compares runes by
code point, so the model works on `Char.toNat`. -/

/-- The filter in `normalizePluginName`'s loop, from the Go condition
`(r >= 'a' && r <= 'z') || (r >= 'A' && r <= 'Z') || (r >= '0' && r <= '9')
|| r == ' ' || r == '-' || r == '_'` (code points: a=97 z=122 A=65 Z=90
0=48 9=57 space=32 dash=45 underscore=95). -/
def keepChar (r : Char) : Bool :=
  (97 ≤ r.toNat && r.toNat ≤ 122) || (65 ≤ r.toNat && r.toNat ≤ 90) ||
  (48 ≤ r.toNat && r.toNat ≤ 57) || r.toNat == 32 || r.toNat == 45 || r.toNat == 95

/-- One character of `strings.ReplaceAll(s, " ", "-")`: the pattern is a
single character, so the replacement acts pointwise. -/
def spaceToDash (r : Char) : Char :=
  if r.toNat = 32 then '-' else r

/-- `strings.ToLower` restricted to ASCII, which is all that reaches it in
`normalizePluginName` (the preceding filter keeps only ASCII): an upper-case
letter gains 32, everything else is unchanged. -/
def asciiToLower (r : Char) : Char :=
  if 65 ≤ r.toNat ∧ r.toNat ≤ 90 then Char.ofNat (r.toNat + 32) else r

/-- `normalizePluginName` (uninstall.go): filter to the allowed character
set, replace spaces by dashes, lower-case.  Modelled on the rune list of
the string. -/
def normalizePluginName (name : List Char) : List Char :=
  ((name.filter keepChar).map spaceToDash).map asciiToLower

/-- The character set the specification claims for the output: lower-case
ASCII letters, ASCII digits, dash, underscore. -/
def isNormalizedChar (r : Char) : Bool :=
  (97 ≤ r.toNat && r.toNat ≤ 122) || (48 ≤ r.toNat && r.toNat ≤ 57) ||
  r.toNat == 45 || r.toNat == 95

/-- `strings.EqualFold` as used on hex digests: case-insensitive ASCII
comparison.  (Go's EqualFold does Unicode simple folding, which agrees
with ASCII folding on the hex-digit strings it is applied to here.) -/
def eqFold (a b : String) : Bool :=
  a.data.map asciiToLower == b.data.map asciiToLower

/-- `strings.ToLower` on an ASCII string (see `asciiToLower`). -/
def goToLower (s : String) : String :=
  String.mk (s.data.map asciiToLower)

/-! ## Catalog data model

Only the fields the verified functions read are modelled; Go maps become
association lists with `alistGet` lookup. -/

/-- Lookup in a Go map modelled as an association list. -/
def alistGet {α : Type} (m : List (String × α)) (k : String) : Option α :=
  (m.find? (fun e => e.1 == k)).map (fun e => e.2)

/-- Go map update `m[k] = v`: last write wins. -/
def alistSet {α : Type} (m : List (String × α)) (k : String) (v : α) :
    List (String × α) :=
  (k, v) :: m.filter (fun e => !(e.1 == k))

/-- `ModrinthProject` (sources): the compatibility check reads only
`Categories`. -/
structure ModrinthProject where
  categories : List String
deriving DecidableEq

/-- `ModrinthFile` (sources): `Hashes` is a Go map algorithm-name → hex. -/
structure ModrinthFile where
  url : String
  filename : String
  hashes : List (String × String)
  primary : Bool
deriving DecidableEq

/-- `ModrinthVersion` (sources): fields read by the install pipeline. -/
structure ModrinthVersion where
  versionNumber : String
  files : List ModrinthFile
deriving DecidableEq

/-- `HangarProject` (sources/hangar.go): `SupportedPlatforms` maps a
platform name to its game-version list. -/
structure HangarProject where
  supportedPlatforms : List (String × List String)
deriving DecidableEq

/-! ## Compatibility resolver

`ModrinthIsPluginCompatible` (internal/server/downloader.go, sources
section) and `HangarIsPluginCompatible` plus `mapServerTypeToPlatform`
(internal/sources/hangar.go). -/

/-- One arm of the `switch` in `ModrinthIsPluginCompatible`: scan the
category list in order; a category in `exactCats` returns
`(true, true)`, one in `fallbackCats` returns `(true, false)`, otherwise
the scan continues and ends at `(false, false)`. -/
def modrinthCompatScan (exactCats fallbackCats : List String) :
    List String → Bool × Bool
  | [] => (false, false)
  | cat :: rest =>
    if exactCats.contains cat then (true, true)
    else if fallbackCats.contains cat then (true, false)
    else modrinthCompatScan exactCats fallbackCats rest

/-- `ModrinthIsPluginCompatible(project, serverType)`: empty server type
is unconstrained; a category equal to the server type is an exact match;
otherwise the per-platform `switch` scans the categories with that
platform's exact and fallback keys; an unlisted platform falls through
to `(false, false)`. -/
def ModrinthIsPluginCompatible (project : ModrinthProject)
    (serverType : String) : Bool × Bool :=
  if serverType = "" then (true, true)
  else if project.categories.contains serverType then (true, true)
  else
    match serverType with
    | "folia" => modrinthCompatScan ["folia"] [] project.categories
    | "paper" => modrinthCompatScan ["paper"] ["spigot", "bukkit"] project.categories
    | "purpur" => modrinthCompatScan ["purpur"] ["paper", "spigot", "bukkit"] project.categories
    | "spigot" => modrinthCompatScan ["spigot"] ["bukkit"] project.categories
    | "bukkit" => modrinthCompatScan ["bukkit"] [] project.categories
    | "velocity" => modrinthCompatScan ["velocity"] [] project.categories
    | "waterfall" => modrinthCompatScan ["bungeecord"] [] project.categories
    | "sponge" => modrinthCompatScan ["sponge"] [] project.categories
    | _ => (false, false)

/-- `mapServerTypeToPlatform` (hangar.go): lower-cases the server type
and maps it to Hangar's platform vocabulary; unknown types map to "". -/
def mapServerTypeToPlatform (serverType : String) : String :=
  match goToLower serverType with
  | "paper" | "purpur" | "folia" | "spigot" | "bukkit" => "PAPER"
  | "velocity" => "VELOCITY"
  | "waterfall" => "WATERFALL"
  | _ => ""

/-- The `switch serverType` in `HangarIsPluginCompatible`, reached when
the mapped platform is absent from `SupportedPlatforms` or has an empty
version list.  Note the switch matches the raw (un-lowered) server
type. -/
def hangarCompatSwitch (project : HangarProject) (serverType : String) :
    Bool × Bool :=
  match serverType with
  | "paper" =>
    if (alistGet project.supportedPlatforms "PAPER").isSome then (true, true)
    else (false, false)
  | "velocity" =>
    if (alistGet project.supportedPlatforms "VELOCITY").isSome then (true, true)
    else (false, false)
  | "waterfall" =>
    if (alistGet project.supportedPlatforms "WATERFALL").isSome then (true, true)
    else (false, false)
  | "purpur" | "folia" =>
    if (alistGet project.supportedPlatforms "PAPER").isSome then (true, false)
    else (false, false)
  | "spigot" | "bukkit" =>
    if (alistGet project.supportedPlatforms "PAPER").isSome then (true, false)
    else (false, false)
  | _ => (false, false)

/-- `HangarIsPluginCompatible(project, serverType)` (hangar.go): empty
server type is unconstrained; a server type that maps to no Hangar
platform is incompatible; a mapped platform with a non-empty version
list is an exact match; otherwise the `switch` decides. -/
def HangarIsPluginCompatible (project : HangarProject)
    (serverType : String) : Bool × Bool :=
  if serverType = "" then (true, true)
  else
    let platform := mapServerTypeToPlatform serverType
    if platform = "" then (false, false)
    else
      match alistGet project.supportedPlatforms platform with
      | some versions =>
        if versions.length > 0 then (true, true)
        else hangarCompatSwitch project serverType
      | none => hangarCompatSwitch project serverType

/-! ### Spec-side verdict table (from the claim's words)

The claim describes the verdict through a per-platform table of one
exact-match key set and one fallback key set.  These definitions follow
the claim's words; the theorems compare them with the code above. -/

/-- Exact-match keys per Modrinth target platform.  Every platform's own
name is an exact key (the code's first loop); `waterfall` additionally
accepts `bungeecord` exactly. -/
def modrinthExactKeys (serverType : String) : List String :=
  match serverType with
  | "waterfall" => ["waterfall", "bungeecord"]
  | st => [st]

/-- Fallback keys per Modrinth target platform (usable but inexact). -/
def modrinthFallbackKeys : String → List String
  | "paper" => ["spigot", "bukkit"]
  | "purpur" => ["paper", "spigot", "bukkit"]
  | "spigot" => ["bukkit"]
  | _ => []

/-- The claim's verdict rule for a category set: an exact key present
gives `(true, true)`, else a fallback key present gives `(true, false)`,
else `(false, false)`. -/
def verdictFromTable (exact fallback categories : List String) :
    Bool × Bool :=
  if categories.any (fun c => exact.contains c) then (true, true)
  else if categories.any (fun c => fallback.contains c) then (true, false)
  else (false, false)

/-- The verdict the Hangar switch gives when the mapped platform key is
present but its version list is empty (claim-side table: the raw server
types `paper`/`velocity`/`waterfall` stay exact, the Paper forks and the
Bukkit lineage fall back inexactly, anything else is incompatible). -/
def hangarFallbackVerdict : String → Bool × Bool
  | "paper" | "velocity" | "waterfall" => (true, true)
  | "purpur" | "folia" | "spigot" | "bukkit" => (true, false)
  | _ => (false, false)

/-- The claim-style characterization of the Hangar verdict: the mapped
platform supported with a non-empty version list is exact; present with
an empty list, `hangarFallbackVerdict` decides; everything else is
incompatible. -/
def hangarVerdictModel (supported : List (String × List String))
    (serverType : String) : Bool × Bool :=
  if serverType = "" then (true, true)
  else if mapServerTypeToPlatform serverType = "" then (false, false)
  else
    let p := mapServerTypeToPlatform serverType
    let nonemptySupport : Bool :=
      match alistGet supported p with
      | some vs => decide (0 < vs.length)
      | none => false
    if nonemptySupport then (true, true)
    else if (alistGet supported p).isSome then hangarFallbackVerdict serverType
    else (false, false)

/-! ## Version selector

The selection block of `installFromPackage` (install.go): a pinned
constraint linear-scans for the first exact `VersionNumber` match;
`"latest"` or the empty constraint takes the element at index 0. -/

/-- `plugin.Version != "" && plugin.Version != "latest"` scans for an
exact label; otherwise `versions[0]` when the list is non-empty. -/
def selectModrinthVersion (constraint : String)
    (versions : List ModrinthVersion) : Option ModrinthVersion :=
  if constraint ≠ "" ∧ constraint ≠ "latest" then
    versions.find? (fun v => v.versionNumber == constraint)
  else versions.head?

/-- A `package.yml` plugin entry as read by the batch installer
(Modrinth path): name, declared version constraint, catalog id. -/
structure Plugin where
  name : String
  version : String
  modrinthID : String
deriving DecidableEq

/-- One download task produced by the metadata phase. -/
structure ResolvedTask where
  plugin : Plugin
  target : ModrinthVersion
deriving DecidableEq

/-- The per-plugin metadata loop of `installFromPackage` (Modrinth
entries), abstracted over the catalog answer `versionsOf` (the result of
`GetProjectVersions` plus the alternative-platform fallback): an empty
catalog list or a pinned version with no match is reported and the loop
`continue`s; otherwise the plugin contributes one task.  Returns the
task list and the reported failures, both in source order. -/
def buildTasks (versionsOf : String → List ModrinthVersion) :
    List Plugin → List ResolvedTask × List String
  | [] => ([], [])
  | p :: rest =>
    let r := buildTasks versionsOf rest
    let versions := versionsOf p.modrinthID
    if versions.isEmpty then
      (r.1, ("No versions available for " ++ p.name) :: r.2)
    else
      match selectModrinthVersion p.version versions with
      | some v => (⟨p, v⟩ :: r.1, r.2)
      | none =>
        (r.1, ("Version " ++ p.version ++ " not found for " ++ p.name) :: r.2)

/-! ## Catalog clients

The HTTP handling of `ModrinthClient` and `HangarClient`
(search / project metadata / version listing).  The HTTP response is a
parameter; the JSON decoder is a parameter (its failure message is the
library's).  The Go error value is modelled as the formatted string the
code builds. -/

/-- An HTTP response as the clients see it. -/
structure HttpResponse where
  status : Nat
  body : String
deriving DecidableEq

/-- `ModrinthClient.SearchProjects`: a non-200 status becomes
`fmt.Errorf("API error: %d", resp.StatusCode)` — the body is dropped. -/
def ModrinthClient.SearchProjects (resp : HttpResponse)
    (decode : String → Option (List ModrinthProject)) :
    Except String (List ModrinthProject) :=
  if resp.status ≠ 200 then Except.error ("API error: " ++ toString resp.status)
  else
    match decode resp.body with
    | some hits => Except.ok hits
    | none => Except.error "json decode error"

/-- `ModrinthClient.GetProject`: same non-200 handling as the search. -/
def ModrinthClient.GetProject (resp : HttpResponse)
    (decode : String → Option ModrinthProject) :
    Except String ModrinthProject :=
  if resp.status ≠ 200 then Except.error ("API error: " ++ toString resp.status)
  else
    match decode resp.body with
    | some project => Except.ok project
    | none => Except.error "json decode error"

/-- `ModrinthClient.GetProjectVersions`: same non-200 handling. -/
def ModrinthClient.GetProjectVersions (resp : HttpResponse)
    (decode : String → Option (List ModrinthVersion)) :
    Except String (List ModrinthVersion) :=
  if resp.status ≠ 200 then Except.error ("API error: " ++ toString resp.status)
  else
    match decode resp.body with
    | some versions => Except.ok versions
    | none => Except.error "json decode error"

/-- `HangarClient.SearchProjects`: a non-200 status becomes
`fmt.Errorf("API error: %d - %s", resp.StatusCode, string(body))` — the
raw body is included. -/
def HangarClient.SearchProjects (resp : HttpResponse)
    (decode : String → Option (List HangarProject)) :
    Except String (List HangarProject) :=
  if resp.status ≠ 200 then
    Except.error ("API error: " ++ toString resp.status ++ " - " ++ resp.body)
  else
    match decode resp.body with
    | some result => Except.ok result
    | none => Except.error "json decode error"

/-- `HangarClient.GetProject`: same non-200 handling as the Hangar
search (status and body). -/
def HangarClient.GetProject (resp : HttpResponse)
    (decode : String → Option HangarProject) :
    Except String HangarProject :=
  if resp.status ≠ 200 then
    Except.error ("API error: " ++ toString resp.status ++ " - " ++ resp.body)
  else
    match decode resp.body with
    | some project => Except.ok project
    | none => Except.error "json decode error"

/-- `strings.ToUpper` restricted to ASCII (used on platform names). -/
def asciiToUpper (r : Char) : Char :=
  if 97 ≤ r.toNat ∧ r.toNat ≤ 122 then Char.ofNat (r.toNat - 32) else r

/-- `strings.ToUpper` on an ASCII string. -/
def goToUpper (s : String) : String :=
  String.mk (s.data.map asciiToUpper)

/-- A Hangar version entry: the fields the version listing reads. -/
structure HangarVersion where
  name : String
  platformDependencies : List (String × List String)
deriving DecidableEq

/-- The client-side filter loop of `HangarClient.GetProjectVersions`: a
version is kept when (platform unset or its upper-cased key is present
in `PlatformDependencies`) and (game version unset, or platform unset,
or the game version occurs in that key's list). -/
def hangarVersionFilter (gameVersion platform : String)
    (vs : List HangarVersion) : List HangarVersion :=
  vs.filter (fun v =>
    (if platform ≠ "" then
      (alistGet v.platformDependencies (goToUpper platform)).isSome
     else true) &&
    (if gameVersion ≠ "" ∧ platform ≠ "" then
      match alistGet v.platformDependencies (goToUpper platform) with
      | some versions => versions.contains gameVersion
      | none => false
     else true))

/-- `HangarClient.GetProjectVersions`: non-200 responses carry status
and body; success decodes the page and filters it client-side. -/
def HangarClient.GetProjectVersions (resp : HttpResponse)
    (decode : String → Option (List HangarVersion))
    (gameVersion platform : String) :
    Except String (List HangarVersion) :=
  if resp.status ≠ 200 then
    Except.error ("API error: " ++ toString resp.status ++ " - " ++ resp.body)
  else
    match decode resp.body with
    | some versions => Except.ok (hangarVersionFilter gameVersion platform versions)
    | none => Except.error "json decode error"

/-! ## Fetch-and-verify engine

`downloadFileModrinth` / `downloadFileHangar` (install.go).  The
filesystem is an association list path → bytes.  The HTTP stream, the
hex digest of the hash library, and the success of each file-system
syscall are parameters: `DlEnv` holds what the environment supplies and
`DlSched` lets a theorem place an IO failure (or interruption) at each
point the code can fail.  `os.CreateTemp(destDir, "mpm-download-*.tmp")`
yields a fresh uniquely-named path inside `destDir`; the model takes
that path (`tmpPath`) as an argument, with its freshness a hypothesis
where needed. -/

/-- Map removal (the `defer os.Remove(tmpFile.Name())`). -/
def alistRemove {α : Type} (m : List (String × α)) (k : String) :
    List (String × α) :=
  m.filter (fun e => !(e.1 == k))

/-- Progress-bar calls observed by the UI collaborator. -/
inductive PEvent where
  | setTotal (n : Nat)
  | update (n : Nat)
  | finish
deriving DecidableEq

/-- Environment of one download: the `--force` flag, the hash library's
hex digest function, the HTTP body (`none` = transport error from
`DownloadFile`), and the declared content length. -/
structure DlEnv where
  force : Bool
  hashHex : List Nat → String
  stream : Option (List Nat)
  declaredSize : Int

/-- Outcome of each fallible syscall along the download, letting a
theorem simulate an interruption at any point: `streamInterrupt k` fails
the `io.Copy` to the temp file after `k` bytes, `copyInterrupt k` fails
the fallback copy into the destination after `k` bytes. -/
structure DlSched where
  tmpCreateOk : Bool
  streamInterrupt : Option Nat
  renameOk : Bool
  createDestOk : Bool
  copyInterrupt : Option Nat
deriving DecidableEq

/-- The error cases of the download (Go returns `error` values; the
checksum error carries the expected digest, the computed digest and the
filename, as the formatted message does). -/
inductive DlErr where
  | transport
  | tmpCreateFailed
  | streamFailed
  | checksumMismatch (expected actual filename : String)
  | createDestFailed
  | copyFailed
deriving DecidableEq

instance {ε α : Type} [DecidableEq ε] [DecidableEq α] :
    DecidableEq (Except ε α) := fun a b =>
  match a, b with
  | Except.ok x, Except.ok y =>
    if h : x = y then isTrue (by rw [h])
    else isFalse (by intro hc; cases hc; exact h rfl)
  | Except.error x, Except.error y =>
    if h : x = y then isTrue (by rw [h])
    else isFalse (by intro hc; cases hc; exact h rfl)
  | Except.ok _, Except.error _ => isFalse (by intro hc; cases hc)
  | Except.error _, Except.ok _ => isFalse (by intro hc; cases hc)

/-- Result of a download: final filesystem, outcome, whether the
network was touched, and the progress events emitted.  (Per-chunk
`UpdateBar` calls during the copy are not modelled; the events listed
are the `SetBarTotal`/`UpdateBar`/`FinishBar` calls the function makes
outside the copy loop.) -/
structure DlResult where
  fs : List (String × List Nat)
  outcome : Except DlErr Unit
  networkUsed : Bool
  events : List PEvent
deriving DecidableEq

/-- `downloadFileModrinth(client, url, filename, destDir, expectedHash,
progressBarID)`: skip when the destination exists and force is unset;
otherwise stream to a temp file in `destDir` while hashing; after the
stream, a non-empty expected digest is compared case-insensitively and a
mismatch discards the temp file; otherwise the temp file is renamed onto
the destination, falling back to an in-place copy when the rename
fails. -/
def downloadFileModrinth (env : DlEnv) (sched : DlSched)
    (filename destDir tmpPath expectedHash : String) (barID : Int)
    (fs : List (String × List Nat)) : DlResult :=
  let destPath := destDir ++ "/" ++ filename
  if env.force = false ∧ (alistGet fs destPath).isSome then
    { fs := fs, outcome := Except.ok (), networkUsed := false,
      events :=
        if 0 ≤ barID then [PEvent.setTotal 1, PEvent.update 1, PEvent.finish]
        else [] }
  else
    match env.stream with
    | none =>
      { fs := fs, outcome := Except.error DlErr.transport,
        networkUsed := true, events := [] }
    | some bytes =>
      let ev0 : List PEvent :=
        if 0 ≤ barID ∧ 0 < env.declaredSize then
          [PEvent.setTotal env.declaredSize.toNat]
        else []
      if sched.tmpCreateOk = false then
        { fs := fs, outcome := Except.error DlErr.tmpCreateFailed,
          networkUsed := true, events := ev0 }
      else
        match sched.streamInterrupt with
        | some k =>
          { fs := alistRemove (alistSet fs tmpPath (bytes.take k)) tmpPath,
            outcome := Except.error DlErr.streamFailed,
            networkUsed := true, events := ev0 }
        | none =>
          let calculatedHash := env.hashHex bytes
          let evFin := ev0 ++ (if 0 ≤ barID then [PEvent.finish] else [])
          if expectedHash ≠ "" ∧ eqFold calculatedHash expectedHash = false then
            { fs := alistRemove (alistSet fs tmpPath bytes) tmpPath,
              outcome := Except.error
                (DlErr.checksumMismatch expectedHash calculatedHash filename),
              networkUsed := true, events := evFin }
          else if sched.renameOk then
            { fs := alistSet (alistRemove (alistSet fs tmpPath bytes) tmpPath)
                destPath bytes,
              outcome := Except.ok (), networkUsed := true, events := evFin }
          else if sched.createDestOk = false then
            { fs := alistRemove (alistSet fs tmpPath bytes) tmpPath,
              outcome := Except.error DlErr.createDestFailed,
              networkUsed := true, events := evFin }
          else
            match sched.copyInterrupt with
            | some k =>
              { fs := alistSet (alistRemove (alistSet fs tmpPath bytes) tmpPath)
                  destPath (bytes.take k),
                outcome := Except.error DlErr.copyFailed,
                networkUsed := true, events := evFin }
            | none =>
              { fs := alistSet (alistRemove (alistSet fs tmpPath bytes) tmpPath)
                  destPath bytes,
                outcome := Except.ok (), networkUsed := true, events := evFin }

/-- `downloadFileHangar` is `downloadFileModrinth` with `sha256` in
place of `sha512`; the model takes the digest as `env.hashHex`, so the
two bodies coincide. -/
def downloadFileHangar (env : DlEnv) (sched : DlSched)
    (filename destDir tmpPath expectedHash : String) (barID : Int)
    (fs : List (String × List Nat)) : DlResult :=
  downloadFileModrinth env sched filename destDir tmpPath expectedHash barID fs

/-! ## One batch job: download then record the lock entry -/

/-- A persisted lock record (`models.PluginLock`). -/
structure PluginLock where
  name : String
  version : String
  hash : String
deriving DecidableEq

/-- One dispatched download task of `installFromPackage` (the fields the
goroutine body reads): the lock key is the catalog identifier, the
expected hash is the catalog-published digest (`Hashes["sha512"]`,
possibly absent = ""). -/
structure DownloadTask where
  pluginName : String
  lockKey : String
  version : String
  filename : String
  expectedHash : String
deriving DecidableEq

/-- The goroutine body for one task (install.go, download loop): run the
download; on error report it, on success store
`lockFile.Plugins[lockKey] = {Name, Version, Hash: expectedHash}`.
Returns the filesystem, the lock map, and the error if any. -/
def runDownloadJob (env : DlEnv) (sched : DlSched)
    (pluginsDir tmpPath : String) (barID : Int) (t : DownloadTask)
    (fs : List (String × List Nat)) (locks : List (String × PluginLock)) :
    List (String × List Nat) × List (String × PluginLock) × Option DlErr :=
  let r := downloadFileModrinth env sched t.filename pluginsDir tmpPath
    t.expectedHash barID fs
  match r.outcome with
  | Except.error e => (r.fs, locks, some e)
  | Except.ok _ =>
    (r.fs, alistSet locks t.lockKey ⟨t.pluginName, t.version, t.expectedHash⟩,
      none)

/-! ## Concurrency coordinator

The download loop of `installFromPackage`: N goroutines, a buffered
channel of capacity 5 as a counting semaphore, a mutex-protected error
list and lock map, and `wg.Wait()` as the join.  The interleaving is a
step relation on a state carrying each job's phase (spawned but blocked
on the semaphore / holding a permit while downloading / finished), the
error report and the lock-write log.  Each job's download outcome is a
fixed parameter `res` (the jobs are independent; one job's bytes do not
depend on another's).  A job can only start while fewer than 5 permits
are held, and finishing appends exactly one outcome under the mutex. -/

/-- Phase of one dispatched goroutine. -/
inductive JobPhase where
  | pending
  | running
  | done
deriving DecidableEq

/-- Coordinator state: one phase per job, the accumulated error report
(indices of failed jobs, in completion order) and the lock-write log
(indices of succeeded jobs, in completion order). -/
structure CoordState where
  phases : List JobPhase
  errs : List Nat
  locks : List Nat
deriving DecidableEq

/-- Number of jobs currently holding a semaphore permit (in-flight
fetches). -/
def countRunning : List JobPhase → Nat
  | [] => 0
  | JobPhase.running :: rest => countRunning rest + 1
  | _ :: rest => countRunning rest

/-- Number of finished jobs. -/
def countDone : List JobPhase → Nat
  | [] => 0
  | JobPhase.done :: rest => countDone rest + 1
  | _ :: rest => countDone rest

/-- Initial state: all N jobs spawned and blocked on the semaphore. -/
def coordInit (n : Nat) : CoordState :=
  ⟨List.replicate n JobPhase.pending, [], []⟩

/-- The join point: `wg.Wait()` has returned. -/
def allDone (s : CoordState) : Bool :=
  s.phases.all (fun p => p == JobPhase.done)

/-- One interleaving step: a blocked job acquires a permit only while
fewer than 5 are held (`semaphore <- struct{}{}` on a channel of
capacity 5); a running job finishes by appending its single outcome —
the lock write on success, the error entry on failure — and releasing
its permit. -/
inductive CoordStep (res : Nat → Bool) : CoordState → CoordState → Prop where
  | start (s : CoordState) (i : Nat)
      (hp : s.phases.get? i = some JobPhase.pending)
      (hcap : countRunning s.phases < 5) :
      CoordStep res s ⟨s.phases.set i JobPhase.running, s.errs, s.locks⟩
  | finishSuccess (s : CoordState) (i : Nat)
      (hp : s.phases.get? i = some JobPhase.running)
      (hres : res i = true) :
      CoordStep res s ⟨s.phases.set i JobPhase.done, s.errs, s.locks ++ [i]⟩
  | finishFailure (s : CoordState) (i : Nat)
      (hp : s.phases.get? i = some JobPhase.running)
      (hres : res i = false) :
      CoordStep res s ⟨s.phases.set i JobPhase.done, s.errs ++ [i], s.locks⟩

/-- Reflexive-transitive closure of the step relation. -/
inductive CoordReach (res : Nat → Bool) : CoordState → CoordState → Prop where
  | refl (s : CoordState) : CoordReach res s s
  | tail {s t u : CoordState} : CoordReach res s t → CoordStep res t u →
      CoordReach res s u

/-- Replay of the lock writes into the shared lock map: job `i` writes
`lockFile.Plugins[(entries i).1] = (entries i).2` under the mutex. -/
def applyLockWrites (entries : Nat → String × PluginLock) (locks : List Nat)
    (m : List (String × PluginLock)) : List (String × PluginLock) :=
  locks.foldl (fun acc i => alistSet acc (entries i).1 (entries i).2) m

/-- The coordinator invariant: phase count is fixed, at most 5 permits
are held, the error report holds exactly the finished failing jobs, the
lock log exactly the finished succeeding jobs, each finished job has
exactly one outcome, and outcomes count the finished jobs. -/
structure CoordInv (res : Nat → Bool) (n : Nat) (s : CoordState) : Prop where
  len : s.phases.length = n
  cap : countRunning s.phases ≤ 5
  errsProp : ∀ i ∈ s.errs, s.phases.get? i = some JobPhase.done ∧ res i = false
  locksProp : ∀ i ∈ s.locks, s.phases.get? i = some JobPhase.done ∧ res i = true
  doneProp : ∀ i, s.phases.get? i = some JobPhase.done → i ∈ s.errs ∨ i ∈ s.locks
  nodup : (s.errs ++ s.locks).Nodup
  countProp : countDone s.phases = s.errs.length + s.locks.length

/-- A two-job outcome assignment used by concrete schedules: job 0
succeeds, job 1 fails. -/
def twoJobsRes : Nat → Bool := fun i => i == 0

end Mpm

namespace Mpm

/-! ## Facts about the character functions -/

theorem char_toNat_ofNat_valid (n : Nat) (h : n.isValidChar) :
    (Char.ofNat n).toNat = n := by
  simp [Char.ofNat, Char.ofNatAux, Char.toNat, UInt32.toNat, h]

theorem asciiToLower_toNat_of_upper {c : Char} (h : 65 ≤ c.toNat ∧ c.toNat ≤ 90) :
    (asciiToLower c).toNat = c.toNat + 32 := by
  have hv : (c.toNat + 32).isValidChar := Or.inl (by omega)
  simp [asciiToLower, h, char_toNat_ofNat_valid _ hv]

theorem asciiToLower_of_not_upper {c : Char} (h : ¬(65 ≤ c.toNat ∧ c.toNat ≤ 90)) :
    asciiToLower c = c := by
  simp [asciiToLower, h]

theorem spaceToDash_of_ne_space {c : Char} (h : c.toNat ≠ 32) :
    spaceToDash c = c := by
  simp [spaceToDash, h]

/-- A kept character becomes, after space replacement and lower-casing, a
character of the normalized set. -/
theorem isNormalizedChar_step {c : Char} (h : keepChar c = true) :
    isNormalizedChar (asciiToLower (spaceToDash c)) = true := by
  simp only [keepChar, Bool.or_eq_true, Bool.and_eq_true, decide_eq_true_eq,
    beq_iff_eq] at h
  by_cases hs : c.toNat = 32
  · have hd : spaceToDash c = '-' := by simp [spaceToDash, hs]
    rw [hd]
    have : ¬(65 ≤ ('-' : Char).toNat ∧ ('-' : Char).toNat ≤ 90) := by decide
    rw [asciiToLower_of_not_upper this]
    decide
  · rw [spaceToDash_of_ne_space hs]
    by_cases hu : 65 ≤ c.toNat ∧ c.toNat ≤ 90
    · have := asciiToLower_toNat_of_upper hu
      simp only [isNormalizedChar, Bool.or_eq_true, Bool.and_eq_true,
        decide_eq_true_eq, beq_iff_eq, this]
      omega
    · rw [asciiToLower_of_not_upper hu]
      simp only [isNormalizedChar, Bool.or_eq_true, Bool.and_eq_true,
        decide_eq_true_eq, beq_iff_eq]
      omega

/-- A normalized character is kept by the filter, is not a space, and is
not upper-case: all three normalization stages fix it. -/
theorem normalized_fixed {c : Char} (h : isNormalizedChar c = true) :
    keepChar c = true ∧ spaceToDash c = c ∧ asciiToLower c = c := by
  simp only [isNormalizedChar, Bool.or_eq_true, Bool.and_eq_true,
    decide_eq_true_eq, beq_iff_eq] at h
  refine ⟨?_, ?_, ?_⟩
  · simp only [keepChar, Bool.or_eq_true, Bool.and_eq_true,
      decide_eq_true_eq, beq_iff_eq]
    omega
  · exact spaceToDash_of_ne_space (by omega)
  · exact asciiToLower_of_not_upper (by omega)

theorem map_id_of_forall {α : Type} (f : α → α) :
    ∀ l : List α, (∀ a ∈ l, f a = a) → l.map f = l
  | [], _ => rfl
  | a :: t, h => by
    simp only [List.map_cons, h a (List.mem_cons_self a t),
      map_id_of_forall f t (fun b hb => h b (List.mem_cons_of_mem a hb))]

theorem normalizePluginName_all (name : List Char) :
    (normalizePluginName name).all isNormalizedChar = true := by
  simp only [normalizePluginName, List.all_eq_true]
  intro c hc
  simp only [List.mem_map, List.mem_filter] at hc
  obtain ⟨b, ⟨a, ⟨_, hk⟩, hb⟩, hc⟩ := hc
  subst hb; subst hc
  exact isNormalizedChar_step hk

theorem normalizePluginName_fixed {l : List Char}
    (h : ∀ a ∈ l, isNormalizedChar a = true) :
    normalizePluginName l = l := by
  unfold normalizePluginName
  rw [List.filter_eq_self.mpr (fun a ha => (normalized_fixed (h a ha)).1),
    map_id_of_forall _ _ (fun a ha => (normalized_fixed (h a ha)).2.1),
    map_id_of_forall _ _ (fun a ha => (normalized_fixed (h a ha)).2.2)]

theorem normalizePluginName_idem (name : List Char) :
    normalizePluginName (normalizePluginName name) = normalizePluginName name :=
  normalizePluginName_fixed
    (List.all_eq_true.mp (normalizePluginName_all name))

end Mpm

namespace Mpm

/-! ## Facts about the compatibility resolver -/

theorem any_contains_singleton (C : List String) (x : String) :
    (C.any fun c => ([x] : List String).contains c) = C.contains x := by
  rw [Bool.eq_iff_iff]
  simp [List.any_eq_true, List.contains, List.elem_iff]

theorem any_contains_pair (C : List String) (x y : String) :
    (C.any fun c => ([x, y] : List String).contains c) =
      (C.contains x || C.contains y) := by
  rw [Bool.eq_iff_iff]
  simp only [List.any_eq_true, List.contains, List.elem_iff, Bool.or_eq_true,
    List.mem_cons, List.not_mem_nil, or_false]
  constructor
  · rintro ⟨c, hc, rfl | rfl⟩
    · exact Or.inl hc
    · exact Or.inr hc
  · rintro (h | h)
    · exact ⟨x, h, Or.inl rfl⟩
    · exact ⟨y, h, Or.inr rfl⟩

theorem any_contains_nil (C : List String) :
    (C.any fun c => ([] : List String).contains c) = false := by
  simp [List.contains]

/-- When the exact key is absent, the category scan reports a fallback
hit if and only if some category is a fallback key. -/
theorem modrinthCompatScan_not_exact {e : String} (fb : List String)
    {C : List String} (h : ¬ e ∈ C) :
    modrinthCompatScan [e] fb C =
      (if C.any (fun c => fb.contains c) then (true, false)
       else (false, false)) := by
  induction C with
  | nil => simp [modrinthCompatScan]
  | cons c rest ih =>
    have hne : ¬ c = e := fun hc => h (hc ▸ List.mem_cons_self c rest)
    have hrest : ¬ e ∈ rest := fun hr => h (List.mem_cons_of_mem c hr)
    have h1 : ([e] : List String).contains c = false := by
      simp [List.contains, List.elem_iff, hne]
    simp only [modrinthCompatScan, h1, Bool.false_eq_true, if_false,
      List.any_cons]
    by_cases hcfb : fb.contains c = true
    · have hm : c ∈ fb := by simpa [List.contains, List.elem_iff] using hcfb
      simp [hm]
    · have hb : fb.contains c = false := by simpa using hcfb
      simp only [hb, Bool.false_or, Bool.false_eq_true, if_false]
      exact ih hrest

/-- With no fallback keys, the scan is exactly a membership test for the
exact key. -/
theorem modrinthCompatScan_no_fallback (e : String) (C : List String) :
    modrinthCompatScan [e] [] C =
      (if C.contains e then (true, true) else (false, false)) := by
  induction C with
  | nil => simp [modrinthCompatScan, List.contains]
  | cons c rest ih =>
    by_cases hce : c = e
    · subst hce
      have h1 : ([c] : List String).contains c = true := by
        simp [List.contains, List.elem_iff]
      have h2 : (c :: rest).contains c = true := by
        simp [List.contains, List.elem_iff]
      simp [modrinthCompatScan, h1, h2]
    · have h1 : ([e] : List String).contains c = false := by
        simp [List.contains, List.elem_iff, hce]
      have h2 : (c :: rest).contains e = rest.contains e := by
        rw [Bool.eq_iff_iff]
        simp only [List.contains, List.elem_iff, List.mem_cons]
        exact ⟨fun h => h.resolve_left (fun he => hce he.symm), Or.inr⟩
      have h3 : ([] : List String).contains c = false := rfl
      simp only [modrinthCompatScan, h1, h3, Bool.false_eq_true, if_false, h2]
      exact ih

theorem contains_self_modrinthExactKeys (st : String) :
    (modrinthExactKeys st).contains st = true := by
  unfold modrinthExactKeys
  split
  · decide
  · simp [List.contains, List.elem_iff]

/-- The Modrinth compatibility check agrees with the claim-side table. -/
theorem ModrinthIsPluginCompatible_eq_table (C : List String) (st : String) :
    ModrinthIsPluginCompatible ⟨C⟩ st =
      (if st = "" then (true, true)
       else verdictFromTable (modrinthExactKeys st) (modrinthFallbackKeys st) C) := by
  by_cases h0 : st = ""
  · simp [ModrinthIsPluginCompatible, h0]
  · rw [if_neg h0]
    simp only [ModrinthIsPluginCompatible, if_neg h0]
    by_cases hC : C.contains st = true
    · have hmem : st ∈ C := by simpa [List.contains, List.elem_iff] using hC
      have hself : st ∈ modrinthExactKeys st := by
        simpa [List.contains, List.elem_iff] using contains_self_modrinthExactKeys st
      have hx2 : ∃ x ∈ C, x ∈ modrinthExactKeys st := ⟨st, hmem, hself⟩
      simp [verdictFromTable, hmem, List.any_eq_true, List.contains,
        List.elem_iff, hx2]
    · have hnotmem : ¬ st ∈ C := fun hm =>
        hC (by simpa [List.contains, List.elem_iff] using hm)
      have hCf : C.contains st = false := by simpa using hC
      simp only [hCf, Bool.false_eq_true, if_false]
      by_cases e1 : st = "folia"
      · subst e1
        show modrinthCompatScan ["folia"] [] C = verdictFromTable ["folia"] [] C
        rw [modrinthCompatScan_no_fallback]
        simp [verdictFromTable, any_contains_singleton, any_contains_nil, hnotmem]
      by_cases e2 : st = "paper"
      · subst e2
        show modrinthCompatScan ["paper"] ["spigot", "bukkit"] C =
          verdictFromTable ["paper"] ["spigot", "bukkit"] C
        rw [modrinthCompatScan_not_exact _ hnotmem]
        simp [verdictFromTable, any_contains_singleton, hnotmem]
      by_cases e3 : st = "purpur"
      · subst e3
        show modrinthCompatScan ["purpur"] ["paper", "spigot", "bukkit"] C =
          verdictFromTable ["purpur"] ["paper", "spigot", "bukkit"] C
        rw [modrinthCompatScan_not_exact _ hnotmem]
        simp [verdictFromTable, any_contains_singleton, hnotmem]
      by_cases e4 : st = "spigot"
      · subst e4
        show modrinthCompatScan ["spigot"] ["bukkit"] C =
          verdictFromTable ["spigot"] ["bukkit"] C
        rw [modrinthCompatScan_not_exact _ hnotmem]
        simp [verdictFromTable, any_contains_singleton, hnotmem]
      by_cases e5 : st = "bukkit"
      · subst e5
        show modrinthCompatScan ["bukkit"] [] C = verdictFromTable ["bukkit"] [] C
        rw [modrinthCompatScan_no_fallback]
        simp [verdictFromTable, any_contains_singleton, any_contains_nil, hnotmem]
      by_cases e6 : st = "velocity"
      · subst e6
        show modrinthCompatScan ["velocity"] [] C =
          verdictFromTable ["velocity"] [] C
        rw [modrinthCompatScan_no_fallback]
        simp [verdictFromTable, any_contains_singleton, any_contains_nil, hnotmem]
      by_cases e7 : st = "waterfall"
      · subst e7
        show modrinthCompatScan ["bungeecord"] [] C =
          verdictFromTable ["waterfall", "bungeecord"] [] C
        rw [modrinthCompatScan_no_fallback]
        have hiff : (∃ x ∈ C, x = "waterfall" ∨ x = "bungeecord") ↔
            "bungeecord" ∈ C := by
          constructor
          · rintro ⟨x, hx, rfl | rfl⟩
            · exact absurd hx hnotmem
            · exact hx
          · intro h
            exact ⟨_, h, Or.inr rfl⟩
        simp [verdictFromTable, any_contains_nil, List.contains, List.elem_iff, hiff]
      by_cases e8 : st = "sponge"
      · subst e8
        show modrinthCompatScan ["sponge"] [] C = verdictFromTable ["sponge"] [] C
        rw [modrinthCompatScan_no_fallback]
        simp [verdictFromTable, any_contains_singleton, any_contains_nil, hnotmem]
      · have hek : modrinthExactKeys st = [st] := by
          unfold modrinthExactKeys
          split <;> simp_all
        have hfk : modrinthFallbackKeys st = [] := by
          unfold modrinthFallbackKeys
          split <;> simp_all
        rw [hek, hfk]
        split <;>
          simp_all [verdictFromTable, any_contains_singleton, any_contains_nil,
            List.contains, List.elem_iff]

/-- The Hangar switch is incompatible when the mapped platform key is
absent from the support map. -/
theorem hangarCompatSwitch_of_absent {sp : List (String × List String)}
    {st : String} (h : alistGet sp (mapServerTypeToPlatform st) = none) :
    hangarCompatSwitch ⟨sp⟩ st = (false, false) := by
  by_cases e1 : st = "paper"
  · subst e1
    have h' : alistGet sp "PAPER" = none := h
    simp [hangarCompatSwitch, h']
  by_cases e2 : st = "velocity"
  · subst e2
    have h' : alistGet sp "VELOCITY" = none := h
    simp [hangarCompatSwitch, h']
  by_cases e3 : st = "waterfall"
  · subst e3
    have h' : alistGet sp "WATERFALL" = none := h
    simp [hangarCompatSwitch, h']
  by_cases e4 : st = "purpur"
  · subst e4
    have h' : alistGet sp "PAPER" = none := h
    simp [hangarCompatSwitch, h']
  by_cases e5 : st = "folia"
  · subst e5
    have h' : alistGet sp "PAPER" = none := h
    simp [hangarCompatSwitch, h']
  by_cases e6 : st = "spigot"
  · subst e6
    have h' : alistGet sp "PAPER" = none := h
    simp [hangarCompatSwitch, h']
  by_cases e7 : st = "bukkit"
  · subst e7
    have h' : alistGet sp "PAPER" = none := h
    simp [hangarCompatSwitch, h']
  · unfold hangarCompatSwitch
    split <;> simp_all

/-- The Hangar switch matches `hangarFallbackVerdict` when the mapped
platform key is present (in that situation the version list was empty,
or the caller would already have answered exactly). -/
theorem hangarCompatSwitch_of_present {sp : List (String × List String)}
    {vs : List String} {st : String}
    (h : alistGet sp (mapServerTypeToPlatform st) = some vs) :
    hangarCompatSwitch ⟨sp⟩ st = hangarFallbackVerdict st := by
  by_cases e1 : st = "paper"
  · subst e1
    have h' : alistGet sp "PAPER" = some vs := h
    simp [hangarCompatSwitch, hangarFallbackVerdict, h']
  by_cases e2 : st = "velocity"
  · subst e2
    have h' : alistGet sp "VELOCITY" = some vs := h
    simp [hangarCompatSwitch, hangarFallbackVerdict, h']
  by_cases e3 : st = "waterfall"
  · subst e3
    have h' : alistGet sp "WATERFALL" = some vs := h
    simp [hangarCompatSwitch, hangarFallbackVerdict, h']
  by_cases e4 : st = "purpur"
  · subst e4
    have h' : alistGet sp "PAPER" = some vs := h
    simp [hangarCompatSwitch, hangarFallbackVerdict, h']
  by_cases e5 : st = "folia"
  · subst e5
    have h' : alistGet sp "PAPER" = some vs := h
    simp [hangarCompatSwitch, hangarFallbackVerdict, h']
  by_cases e6 : st = "spigot"
  · subst e6
    have h' : alistGet sp "PAPER" = some vs := h
    simp [hangarCompatSwitch, hangarFallbackVerdict, h']
  by_cases e7 : st = "bukkit"
  · subst e7
    have h' : alistGet sp "PAPER" = some vs := h
    simp [hangarCompatSwitch, hangarFallbackVerdict, h']
  · have hl : hangarCompatSwitch ⟨sp⟩ st = (false, false) := by
      unfold hangarCompatSwitch
      split <;> simp_all
    have hr : hangarFallbackVerdict st = (false, false) := by
      unfold hangarFallbackVerdict
      split <;> simp_all
    rw [hl, hr]

/-- The Hangar compatibility check agrees with the claim-side model. -/
theorem HangarIsPluginCompatible_eq_model (sp : List (String × List String))
    (st : String) :
    HangarIsPluginCompatible ⟨sp⟩ st = hangarVerdictModel sp st := by
  by_cases h0 : st = ""
  · simp [HangarIsPluginCompatible, hangarVerdictModel, h0]
  · by_cases hp : mapServerTypeToPlatform st = ""
    · simp [HangarIsPluginCompatible, hangarVerdictModel, h0, hp]
    · simp only [HangarIsPluginCompatible, hangarVerdictModel,
        if_neg h0, if_neg hp]
      cases halist : alistGet sp (mapServerTypeToPlatform st) with
      | none =>
        simp only [halist, Option.isSome_none, Bool.false_eq_true, if_false]
        exact hangarCompatSwitch_of_absent halist
      | some vs =>
        by_cases hlen : 0 < vs.length
        · simp [halist, hlen]
        · have hd : decide (0 < vs.length) = false := by
            simpa using hlen
          simp only [halist, Option.isSome_some, gt_iff_lt, if_neg hlen, hd,
            Bool.false_eq_true, if_false, if_true]
          exact hangarCompatSwitch_of_present halist

end Mpm

namespace Mpm

/-! ## Facts about the association-list filesystem and lock map -/

theorem alistGet_set_self {α : Type} (m : List (String × α)) (k : String)
    (v : α) : alistGet (alistSet m k v) k = some v := by
  simp [alistGet, alistSet, List.find?]

theorem find?_filter_ne {α : Type} (m : List (String × α)) (k k' : String)
    (h : k' ≠ k) :
    (m.filter (fun e => !(e.1 == k))).find? (fun e => e.1 == k') =
      m.find? (fun e => e.1 == k') := by
  induction m with
  | nil => rfl
  | cons e rest ih =>
    by_cases hek : e.1 = k
    · have h2 : (k == k') = false := by
        simpa using fun hc => h hc.symm
      simp [List.filter_cons, hek, List.find?_cons, h2, ih, h]
    · by_cases hek' : e.1 = k'
      · simp [List.filter_cons, hek, List.find?_cons, hek', h]
      · simp [List.filter_cons, hek, List.find?_cons, hek', ih, h]

theorem alistGet_set_ne {α : Type} (m : List (String × α)) (k k' : String)
    (v : α) (h : k' ≠ k) :
    alistGet (alistSet m k v) k' = alistGet m k' := by
  have h2 : ((k, v).1 == k') = false := by simpa using fun hc => h hc.symm
  simp only [alistGet, alistSet, List.find?_cons, h2]
  rw [find?_filter_ne m k k' h]

theorem alistGet_remove_self {α : Type} (m : List (String × α)) (k : String) :
    alistGet (alistRemove m k) k = none := by
  simp only [alistGet, alistRemove]
  induction m with
  | nil => rfl
  | cons e rest ih =>
    by_cases hek : e.1 = k
    · simpa [List.filter_cons, hek] using ih
    · simpa [List.filter_cons, hek, List.find?_cons] using ih

theorem alistGet_remove_ne {α : Type} (m : List (String × α)) (k k' : String)
    (h : k' ≠ k) :
    alistGet (alistRemove m k) k' = alistGet m k' := by
  simp only [alistGet, alistRemove]
  rw [find?_filter_ne m k k' h]

theorem filter_alistSet_self {α : Type} (m : List (String × α)) (k : String)
    (v : α) :
    ((alistSet m k v).filter (fun e => e.1 == k)).length = 1 := by
  simp only [alistSet, List.filter_cons, beq_self_eq_true, if_pos]
  have : (m.filter (fun e => !(e.1 == k))).filter (fun e => e.1 == k) = [] := by
    induction m with
    | nil => rfl
    | cons e rest ih =>
      by_cases hek : e.1 = k
      · simpa [List.filter_cons, hek] using ih
      · simpa [List.filter_cons, hek] using ih
  simp [this]

/-! ## Facts about the download engine -/

/-- The filesystem expression of every post-rename/copy success path
reads back the streamed bytes at the destination and nothing at the
temp path. -/
theorem alistGet_publish (fs : List (String × List Nat))
    (tmpPath destPath : String) (b c : List Nat)
    (h : tmpPath ≠ destPath) :
    alistGet (alistSet (alistRemove (alistSet fs tmpPath b) tmpPath)
        destPath c) destPath = some c ∧
    alistGet (alistSet (alistRemove (alistSet fs tmpPath b) tmpPath)
        destPath c) tmpPath = none := by
  constructor
  · exact alistGet_set_self _ _ _
  · rw [alistGet_set_ne _ _ _ _ h, alistGet_remove_self]

/-- The temp file left by a failed copy/verify is discarded and the
destination is untouched. -/
theorem alistGet_discard (fs : List (String × List Nat))
    (tmpPath destPath : String) (b : List Nat)
    (h : tmpPath ≠ destPath) :
    alistGet (alistRemove (alistSet fs tmpPath b) tmpPath) destPath =
      alistGet fs destPath ∧
    alistGet (alistRemove (alistSet fs tmpPath b) tmpPath) tmpPath = none := by
  constructor
  · rw [alistGet_remove_ne _ _ _ (fun hc => h hc.symm),
      alistGet_set_ne _ _ _ _ (fun hc => h hc.symm)]
  · exact alistGet_remove_self _ _

/-- A successful (non-skip) download streamed some bytes, verified them
against a non-empty expected digest, and published exactly those bytes
at the destination. -/
theorem downloadFileModrinth_ok_characterization
    (env : DlEnv) (sched : DlSched)
    (filename destDir tmpPath expectedHash : String) (barID : Int)
    (fs : List (String × List Nat))
    (hnoskip : ¬(env.force = false ∧
      (alistGet fs (destDir ++ "/" ++ filename)).isSome = true))
    (hok : (downloadFileModrinth env sched filename destDir tmpPath
      expectedHash barID fs).outcome = Except.ok ())
    (htmp : tmpPath ≠ destDir ++ "/" ++ filename) :
    ∃ bytes, env.stream = some bytes ∧
      (expectedHash ≠ "" → eqFold (env.hashHex bytes) expectedHash = true) ∧
      alistGet (downloadFileModrinth env sched filename destDir tmpPath
        expectedHash barID fs).fs (destDir ++ "/" ++ filename) = some bytes := by
  cases hstream : env.stream with
  | none =>
    have hout : (downloadFileModrinth env sched filename destDir tmpPath
        expectedHash barID fs).outcome = Except.error DlErr.transport := by
      simp [downloadFileModrinth, hnoskip, hstream]
    simp [hout] at hok
  | some bytes =>
    refine ⟨bytes, rfl, ?_⟩
    by_cases htc : sched.tmpCreateOk = false
    · have hout : (downloadFileModrinth env sched filename destDir tmpPath
          expectedHash barID fs).outcome = Except.error DlErr.tmpCreateFailed := by
        simp [downloadFileModrinth, hnoskip, hstream, htc]
      simp [hout] at hok
    · cases hsi : sched.streamInterrupt with
      | some k =>
        have hout : (downloadFileModrinth env sched filename destDir tmpPath
            expectedHash barID fs).outcome = Except.error DlErr.streamFailed := by
          simp [downloadFileModrinth, hnoskip, hstream, htc, hsi]
        simp [hout] at hok
      | none =>
        by_cases hmis : expectedHash ≠ "" ∧
            eqFold (env.hashHex bytes) expectedHash = false
        · have hout : (downloadFileModrinth env sched filename destDir tmpPath
              expectedHash barID fs).outcome = Except.error
                (DlErr.checksumMismatch expectedHash (env.hashHex bytes)
                  filename) := by
            simp [downloadFileModrinth, hnoskip, hstream, htc, hsi, hmis]
          simp [hout] at hok
        · have hver : expectedHash ≠ "" →
              eqFold (env.hashHex bytes) expectedHash = true := by
            intro hne
            rcases Bool.eq_false_or_eq_true
              (eqFold (env.hashHex bytes) expectedHash) with ht | hf
            · exact ht
            · exact absurd ⟨hne, hf⟩ hmis
          refine ⟨hver, ?_⟩
          by_cases hrn : sched.renameOk = true
          · have hfs : (downloadFileModrinth env sched filename destDir tmpPath
                expectedHash barID fs).fs =
                  alistSet (alistRemove (alistSet fs tmpPath bytes) tmpPath)
                    (destDir ++ "/" ++ filename) bytes := by
              simp [downloadFileModrinth, hnoskip, hstream, htc, hsi, hmis, hrn]
            rw [hfs]
            exact (alistGet_publish fs tmpPath _ bytes bytes htmp).1
          · by_cases hcd : sched.createDestOk = false
            · have hout : (downloadFileModrinth env sched filename destDir
                  tmpPath expectedHash barID fs).outcome =
                    Except.error DlErr.createDestFailed := by
                simp [downloadFileModrinth, hnoskip, hstream, htc, hsi, hmis,
                  hrn, hcd]
              simp [hout] at hok
            · cases hci : sched.copyInterrupt with
              | some k =>
                have hout : (downloadFileModrinth env sched filename destDir
                    tmpPath expectedHash barID fs).outcome =
                      Except.error DlErr.copyFailed := by
                  simp [downloadFileModrinth, hnoskip, hstream, htc, hsi, hmis,
                    hrn, hcd, hci]
                simp [hout] at hok
              | none =>
                have hfs : (downloadFileModrinth env sched filename destDir
                    tmpPath expectedHash barID fs).fs =
                    alistSet (alistRemove (alistSet fs tmpPath bytes) tmpPath)
                      (destDir ++ "/" ++ filename) bytes := by
                  simp [downloadFileModrinth, hnoskip, hstream, htc, hsi, hmis,
                    hrn, hcd, hci]
                rw [hfs]
                exact (alistGet_publish fs tmpPath _ bytes bytes htmp).1

end Mpm

namespace Mpm

/-! ## Facts about the coordinator -/

theorem countRunning_cons (a : JobPhase) (t : List JobPhase) :
    countRunning (a :: t) =
      countRunning t + (if a = JobPhase.running then 1 else 0) := by
  cases a <;> simp [countRunning]

theorem countDone_cons (a : JobPhase) (t : List JobPhase) :
    countDone (a :: t) =
      countDone t + (if a = JobPhase.done then 1 else 0) := by
  cases a <;> simp [countDone]

theorem countRunning_set (l : List JobPhase) (i : Nat) (v w : JobPhase)
    (h : l.get? i = some w) :
    countRunning (l.set i v) + (if w = JobPhase.running then 1 else 0) =
      countRunning l + (if v = JobPhase.running then 1 else 0) := by
  induction l generalizing i with
  | nil => cases h
  | cons a rest ih =>
    cases i with
    | zero =>
      have ha : a = w := by simpa using h
      subst ha
      simp only [List.set_cons_zero, countRunning_cons]
      omega
    | succ j =>
      have h' : rest.get? j = some w := by simpa using h
      have ihj := ih j h'
      simp only [List.set_cons_succ, countRunning_cons]
      omega

theorem countDone_set (l : List JobPhase) (i : Nat) (v w : JobPhase)
    (h : l.get? i = some w) :
    countDone (l.set i v) + (if w = JobPhase.done then 1 else 0) =
      countDone l + (if v = JobPhase.done then 1 else 0) := by
  induction l generalizing i with
  | nil => cases h
  | cons a rest ih =>
    cases i with
    | zero =>
      have ha : a = w := by simpa using h
      subst ha
      simp only [List.set_cons_zero, countDone_cons]
      omega
    | succ j =>
      have h' : rest.get? j = some w := by simpa using h
      have ihj := ih j h'
      simp only [List.set_cons_succ, countDone_cons]
      omega

theorem countRunning_replicate_pending (n : Nat) :
    countRunning (List.replicate n JobPhase.pending) = 0 := by
  induction n with
  | zero => rfl
  | succ m ih => simpa [List.replicate, countRunning] using ih

theorem countDone_replicate_pending (n : Nat) :
    countDone (List.replicate n JobPhase.pending) = 0 := by
  induction n with
  | zero => rfl
  | succ m ih => simpa [List.replicate, countDone] using ih

theorem coordInv_init (res : Nat → Bool) (n : Nat) :
    CoordInv res n (coordInit n) := by
  refine ⟨?_, ?_, ?_, ?_, ?_, ?_, ?_⟩
  · simp [coordInit]
  · simp [coordInit, countRunning_replicate_pending]
  · intro i hi
    simp [coordInit] at hi
  · intro i hi
    simp [coordInit] at hi
  · intro i hd
    have hmem := List.get?_mem hd
    have := List.eq_of_mem_replicate hmem
    cases this
  · simp [coordInit]
  · simp [coordInit, countDone_replicate_pending]

theorem coordInv_step {res : Nat → Bool} {n : Nat} {s t : CoordState}
    (hstep : CoordStep res s t) (hinv : CoordInv res n s) :
    CoordInv res n t := by
  cases hstep with
  | start i hp hcap =>
    have hi : i < s.phases.length := (List.get?_eq_some.mp hp).1
    have hcnt := countRunning_set s.phases i JobPhase.running JobPhase.pending hp
    have hdn := countDone_set s.phases i JobPhase.running JobPhase.pending hp
    refine ⟨?_, ?_, ?_, ?_, ?_, ?_, ?_⟩
    · simpa using hinv.len
    · simp only [] at hcnt ⊢
      simp at hcnt
      omega
    · intro j hj
      obtain ⟨hdone, hres⟩ := hinv.errsProp j hj
      have hne : i ≠ j := by
        intro he
        rw [← he] at hdone
        rw [hp] at hdone
        cases hdone
      rw [List.get?_set_ne _ _ hne]
      exact ⟨hdone, hres⟩
    · intro j hj
      obtain ⟨hdone, hres⟩ := hinv.locksProp j hj
      have hne : i ≠ j := by
        intro he
        rw [← he] at hdone
        rw [hp] at hdone
        cases hdone
      rw [List.get?_set_ne _ _ hne]
      exact ⟨hdone, hres⟩
    · intro j hdj
      by_cases he : i = j
      · subst he
        rw [List.get?_set_eq_of_lt _ hi] at hdj
        cases hdj
      · rw [List.get?_set_ne _ _ he] at hdj
        exact hinv.doneProp j hdj
    · exact hinv.nodup
    · simp at hdn
      have := hinv.countProp
      simp only []
      omega
  | finishSuccess i hp hres =>
    have hi : i < s.phases.length := (List.get?_eq_some.mp hp).1
    have hcnt := countRunning_set s.phases i JobPhase.done JobPhase.running hp
    have hdn := countDone_set s.phases i JobPhase.done JobPhase.running hp
    have hierrs : i ∉ s.errs := by
      intro hmem
      have := (hinv.errsProp i hmem).1
      rw [hp] at this
      cases this
    have hilocks : i ∉ s.locks := by
      intro hmem
      have := (hinv.locksProp i hmem).1
      rw [hp] at this
      cases this
    refine ⟨?_, ?_, ?_, ?_, ?_, ?_, ?_⟩
    · simpa using hinv.len
    · show countRunning (s.phases.set i JobPhase.done) ≤ 5
      have := hinv.cap
      simp at hcnt
      omega
    · intro j hj
      obtain ⟨hdone, hres'⟩ := hinv.errsProp j hj
      have hne : i ≠ j := by
        intro he
        rw [← he] at hdone
        rw [hp] at hdone
        cases hdone
      rw [List.get?_set_ne _ _ hne]
      exact ⟨hdone, hres'⟩
    · intro j hj
      rcases List.mem_append.mp hj with hj' | hj'
      · obtain ⟨hdone, hres'⟩ := hinv.locksProp j hj'
        have hne : i ≠ j := by
          intro he
          rw [← he] at hdone
          rw [hp] at hdone
          cases hdone
        rw [List.get?_set_ne _ _ hne]
        exact ⟨hdone, hres'⟩
      · have hji : j = i := by simpa using hj'
        subst hji
        rw [List.get?_set_eq_of_lt _ hi]
        exact ⟨rfl, hres⟩
    · intro j hdj
      by_cases he : i = j
      · subst he
        right
        exact List.mem_append.mpr (Or.inr (by simp))
      · rw [List.get?_set_ne _ _ he] at hdj
        rcases hinv.doneProp j hdj with h1 | h1
        · exact Or.inl h1
        · exact Or.inr (List.mem_append.mpr (Or.inl h1))
    · have hre : s.errs ++ s.locks ++ [i] = s.errs ++ (s.locks ++ [i]) :=
        (List.append_assoc _ _ _)
      rw [← hre]
      rw [List.nodup_append]
      refine ⟨hinv.nodup, List.nodup_singleton i, ?_⟩
      intro a ha hai
      have hai' : a = i := by simpa using hai
      subst hai'
      rcases List.mem_append.mp ha with h1 | h1
      · exact hierrs h1
      · exact hilocks h1
    · have := hinv.countProp
      simp at hdn
      simp only [List.length_append, List.length_singleton]
      omega
  | finishFailure i hp hres =>
    have hi : i < s.phases.length := (List.get?_eq_some.mp hp).1
    have hcnt := countRunning_set s.phases i JobPhase.done JobPhase.running hp
    have hdn := countDone_set s.phases i JobPhase.done JobPhase.running hp
    have hierrs : i ∉ s.errs := by
      intro hmem
      have := (hinv.errsProp i hmem).1
      rw [hp] at this
      cases this
    have hilocks : i ∉ s.locks := by
      intro hmem
      have := (hinv.locksProp i hmem).1
      rw [hp] at this
      cases this
    refine ⟨?_, ?_, ?_, ?_, ?_, ?_, ?_⟩
    · simpa using hinv.len
    · show countRunning (s.phases.set i JobPhase.done) ≤ 5
      have := hinv.cap
      simp at hcnt
      omega
    · intro j hj
      rcases List.mem_append.mp hj with hj' | hj'
      · obtain ⟨hdone, hres'⟩ := hinv.errsProp j hj'
        have hne : i ≠ j := by
          intro he
          rw [← he] at hdone
          rw [hp] at hdone
          cases hdone
        rw [List.get?_set_ne _ _ hne]
        exact ⟨hdone, hres'⟩
      · have hji : j = i := by simpa using hj'
        subst hji
        rw [List.get?_set_eq_of_lt _ hi]
        exact ⟨rfl, hres⟩
    · intro j hj
      obtain ⟨hdone, hres'⟩ := hinv.locksProp j hj
      have hne : i ≠ j := by
        intro he
        rw [← he] at hdone
        rw [hp] at hdone
        cases hdone
      rw [List.get?_set_ne _ _ hne]
      exact ⟨hdone, hres'⟩
    · intro j hdj
      by_cases he : i = j
      · subst he
        left
        exact List.mem_append.mpr (Or.inr (by simp))
      · rw [List.get?_set_ne _ _ he] at hdj
        rcases hinv.doneProp j hdj with h1 | h1
        · exact Or.inl (List.mem_append.mpr (Or.inl h1))
        · exact Or.inr h1
    · obtain ⟨hne, hnl, hdisj⟩ := List.nodup_append.mp hinv.nodup
      rw [List.nodup_append]
      refine ⟨?_, hnl, ?_⟩
      · rw [List.nodup_append]
        refine ⟨hne, List.nodup_singleton i, ?_⟩
        intro a ha hai
        have hae : a = i := by simpa using hai
        subst hae
        exact hierrs ha
      · intro a ha hal
        rcases List.mem_append.mp ha with h1 | h1
        · exact hdisj h1 hal
        · have hae : a = i := by simpa using h1
          subst hae
          exact hilocks hal
    · have := hinv.countProp
      simp at hdn
      simp only [List.length_append, List.length_singleton]
      omega

theorem coordInv_reach {res : Nat → Bool} {n : Nat} {s t : CoordState}
    (h : CoordReach res s t) (hinv : CoordInv res n s) : CoordInv res n t := by
  induction h with
  | refl => exact hinv
  | tail hreach hstep ih => exact coordInv_step hstep ih

theorem countDone_of_all_done (l : List JobPhase)
    (h : ∀ p ∈ l, p = JobPhase.done) : countDone l = l.length := by
  induction l with
  | nil => rfl
  | cons a rest ih =>
    have ha := h a (List.mem_cons_self a rest)
    subst ha
    simp only [countDone, List.length_cons]
    rw [ih (fun p hp => h p (List.mem_cons_of_mem _ hp))]

theorem countDone_of_allDone {s : CoordState} (h : allDone s = true) :
    countDone s.phases = s.phases.length :=
  countDone_of_all_done s.phases
    (fun p hp => by simpa using List.all_eq_true.mp h p hp)

/-- In a joined state every job index below the job count has exactly
one recorded outcome, matching its download result. -/
theorem coord_terminal_partition (res : Nat → Bool) (n : Nat)
    (s : CoordState) (h : CoordReach res (coordInit n) s)
    (hdone : allDone s = true) :
    s.errs.length + s.locks.length = n ∧
    (∀ i, i < n →
      (i ∈ s.errs ∧ res i = false) ∨ (i ∈ s.locks ∧ res i = true)) ∧
    (s.errs ++ s.locks).Nodup := by
  have hinv := coordInv_reach h (coordInv_init res n)
  refine ⟨?_, ?_, hinv.nodup⟩
  · rw [← hinv.countProp, countDone_of_allDone hdone, hinv.len]
  · intro i hi
    have hil : i < s.phases.length := by rw [hinv.len]; exact hi
    have hsome : (s.phases.get? i).isSome = true := by
      rw [List.get?_eq_get hil]
      rfl
    obtain ⟨p, hp⟩ := Option.isSome_iff_exists.mp hsome
    have hmem : p ∈ s.phases := List.get?_mem hp
    have hpd : p = JobPhase.done := by
      have := List.all_eq_true.mp hdone p hmem
      simpa using this
    subst hpd
    rcases hinv.doneProp i hp with h1 | h1
    · exact Or.inl ⟨h1, (hinv.errsProp i h1).2⟩
    · exact Or.inr ⟨h1, (hinv.locksProp i h1).2⟩

theorem applyLockWrites_get_of_not_mem (entries : Nat → String × PluginLock)
    (locks : List Nat) (m : List (String × PluginLock)) (k : String)
    (h : ∀ j ∈ locks, (entries j).1 ≠ k) :
    alistGet (applyLockWrites entries locks m) k = alistGet m k := by
  induction locks generalizing m with
  | nil => rfl
  | cons i rest ih =>
    have hstep : applyLockWrites entries (i :: rest) m =
        applyLockWrites entries rest (alistSet m (entries i).1 (entries i).2) :=
      rfl
    rw [hstep, ih _ (fun j hj => h j (List.mem_cons_of_mem i hj))]
    exact alistGet_set_ne _ _ _ _
      (fun he => h i (List.mem_cons_self i rest) he.symm)

theorem applyLockWrites_get (entries : Nat → String × PluginLock)
    (locks : List Nat) (m : List (String × PluginLock)) (B : Nat)
    (hB : B ∈ locks)
    (hkeys : ∀ j ∈ locks, j ≠ B → (entries j).1 ≠ (entries B).1) :
    alistGet (applyLockWrites entries locks m) (entries B).1 =
      some (entries B).2 := by
  induction locks generalizing m with
  | nil => cases hB
  | cons i rest ih =>
    by_cases hBr : B ∈ rest
    · exact ih _ hBr (fun j hj hne => hkeys j (List.mem_cons_of_mem i hj) hne)
    · have hiB : i = B := by
        rcases List.mem_cons.mp hB with h1 | h1
        · exact h1.symm
        · exact absurd h1 hBr
      subst hiB
      have hstep : applyLockWrites entries (i :: rest) m =
          applyLockWrites entries rest
            (alistSet m (entries i).1 (entries i).2) := rfl
      rw [hstep, applyLockWrites_get_of_not_mem entries rest _ _
        (fun j hj => hkeys j (List.mem_cons_of_mem i hj)
          (fun he => hBr (he ▸ hj)))]
      exact alistGet_set_self _ _ _

/-- A concrete complete schedule of two jobs under the semaphore: job 0
starts, succeeds; job 1 starts, fails. -/
theorem twoJobsReach :
    CoordReach twoJobsRes (coordInit 2)
      ⟨[JobPhase.done, JobPhase.done], [1], [0]⟩ := by
  have h1 : CoordStep twoJobsRes (coordInit 2)
      ⟨[JobPhase.running, JobPhase.pending], [], []⟩ :=
    CoordStep.start (coordInit 2) 0 rfl (by decide)
  have h2 : CoordStep twoJobsRes
      ⟨[JobPhase.running, JobPhase.pending], [], []⟩
      ⟨[JobPhase.done, JobPhase.pending], [], [0]⟩ :=
    CoordStep.finishSuccess ⟨[JobPhase.running, JobPhase.pending], [], []⟩ 0
      rfl rfl
  have h3 : CoordStep twoJobsRes
      ⟨[JobPhase.done, JobPhase.pending], [], [0]⟩
      ⟨[JobPhase.done, JobPhase.running], [], [0]⟩ :=
    CoordStep.start ⟨[JobPhase.done, JobPhase.pending], [], [0]⟩ 1 rfl
      (by decide)
  have h4 : CoordStep twoJobsRes
      ⟨[JobPhase.done, JobPhase.running], [], [0]⟩
      ⟨[JobPhase.done, JobPhase.done], [1], [0]⟩ :=
    CoordStep.finishFailure ⟨[JobPhase.done, JobPhase.running], [], [0]⟩ 1
      rfl rfl
  exact CoordReach.tail (CoordReach.tail (CoordReach.tail
    (CoordReach.tail (CoordReach.refl _) h1) h2) h3) h4

end Mpm

/-- C7: along every interleaving of the dispatched jobs, at most 5
fetches hold a semaphore permit at every reachable state; and at the
join point (all jobs finished) every one of the N jobs has contributed
exactly one outcome — the outcome lists partition the job indices, with
no duplicate and no missing entry. -/
theorem coordinator_bounded_and_complete
    (res : Nat → Bool) (n : Nat) (s : Mpm.CoordState)
    (h : Mpm.CoordReach res (Mpm.coordInit n) s) :
    Mpm.countRunning s.phases ≤ 5 ∧
    (Mpm.allDone s = true →
      s.errs.length + s.locks.length = n ∧
      (∀ i, i < n →
        (i ∈ s.errs ∧ res i = false) ∨ (i ∈ s.locks ∧ res i = true)) ∧
      (s.errs ++ s.locks).Nodup) :=
  ⟨(Mpm.coordInv_reach h (Mpm.coordInv_init res n)).cap,
   fun hdone => Mpm.coord_terminal_partition res n s h hdone⟩

/-- Witness for C7: the concrete two-job schedule, fully joined. -/
theorem coordinator_bounded_and_complete_witness :
    Mpm.countRunning [Mpm.JobPhase.done, Mpm.JobPhase.done] ≤ 5 ∧
    ([1] : List Nat).length + ([0] : List Nat).length = 2 :=
  ⟨(coordinator_bounded_and_complete Mpm.twoJobsRes 2
      ⟨[Mpm.JobPhase.done, Mpm.JobPhase.done], [1], [0]⟩ Mpm.twoJobsReach).1,
   ((coordinator_bounded_and_complete Mpm.twoJobsRes 2
      ⟨[Mpm.JobPhase.done, Mpm.JobPhase.done], [1], [0]⟩ Mpm.twoJobsReach).2
      (by decide)).1⟩

/-- C8: in every joined run, a failing job A lands in the error report
and does not prevent a succeeding job B from being recorded: B's write
is in the lock log, and replaying the log into the shared lock map
leaves B's entry under B's key (given B's key is not another job's
key). -/
theorem coordinator_failure_isolation
    (res : Nat → Bool) (n : Nat) (s : Mpm.CoordState)
    (h : Mpm.CoordReach res (Mpm.coordInit n) s)
    (hdone : Mpm.allDone s = true)
    (A B : Nat) (hA : A < n) (hB : B < n)
    (hresA : res A = false) (hresB : res B = true)
    (entries : Nat → String × Mpm.PluginLock)
    (m0 : List (String × Mpm.PluginLock))
    (hkeys : ∀ j, j ≠ B → (entries j).1 ≠ (entries B).1) :
    A ∈ s.errs ∧ B ∈ s.locks ∧
    Mpm.alistGet (Mpm.applyLockWrites entries s.locks m0) (entries B).1 =
      some (entries B).2 := by
  obtain ⟨_, hpart, _⟩ := Mpm.coord_terminal_partition res n s h hdone
  have hAerr : A ∈ s.errs := by
    rcases hpart A hA with h1 | h1
    · exact h1.1
    · rw [h1.2] at hresA
      exact Bool.noConfusion hresA
  have hBlock : B ∈ s.locks := by
    rcases hpart B hB with h1 | h1
    · rw [h1.2] at hresB
      exact Bool.noConfusion hresB
    · exact h1.1
  exact ⟨hAerr, hBlock,
    Mpm.applyLockWrites_get entries s.locks m0 B hBlock
      (fun j _ hne => hkeys j hne)⟩

/-- Witness for C8: in the two-job schedule, job 1's failure is in the
report while job 0's entry is present in the final lock map. -/
theorem coordinator_failure_isolation_witness :
    (1 : Nat) ∈ ([1] : List Nat) ∧ (0 : Nat) ∈ ([0] : List Nat) ∧
    Mpm.alistGet (Mpm.applyLockWrites
        (fun i => (if i = 0 then "key0" else "keyN", ⟨"Foo", "1.0", "aa"⟩))
        [0] []) "key0" = some ⟨"Foo", "1.0", "aa"⟩ :=
  coordinator_failure_isolation Mpm.twoJobsRes 2
    ⟨[Mpm.JobPhase.done, Mpm.JobPhase.done], [1], [0]⟩ Mpm.twoJobsReach
    (by decide) 1 0 (by decide) (by decide) rfl rfl
    (fun i => (if i = 0 then "key0" else "keyN", ⟨"Foo", "1.0", "aa"⟩)) []
    (by intro j hj; simp [hj])

/-- C1: in the download path (destination absent or force set) with an
uninterrupted schedule, a fetch with a non-empty expected digest
succeeds exactly when the hex digest of the streamed bytes matches the
expected digest case-insensitively; on mismatch it fails with the
checksum error carrying the expected digest, the computed digest and the
filename, the destination is unchanged and the temp file is gone; with
an empty expected digest the fetch succeeds with no comparison. -/
theorem downloadFile_checksum_iff
    (env : Mpm.DlEnv) (sched : Mpm.DlSched)
    (filename destDir tmpPath : String) (barID : Int)
    (fs : List (String × List Nat)) (bytes : List Nat)
    (hstream : env.stream = some bytes)
    (hnoskip : ¬(env.force = false ∧
      (Mpm.alistGet fs (destDir ++ "/" ++ filename)).isSome = true))
    (hsched : sched = ⟨true, none, true, true, none⟩)
    (htmp : tmpPath ≠ destDir ++ "/" ++ filename) :
    (∀ expectedHash : String, expectedHash ≠ "" →
      ((Mpm.downloadFileModrinth env sched filename destDir tmpPath
          expectedHash barID fs).outcome = Except.ok () ↔
        Mpm.eqFold (env.hashHex bytes) expectedHash = true) ∧
      (Mpm.eqFold (env.hashHex bytes) expectedHash = false →
        (Mpm.downloadFileModrinth env sched filename destDir tmpPath
            expectedHash barID fs).outcome =
          Except.error (Mpm.DlErr.checksumMismatch expectedHash
            (env.hashHex bytes) filename) ∧
        Mpm.alistGet (Mpm.downloadFileModrinth env sched filename destDir
            tmpPath expectedHash barID fs).fs (destDir ++ "/" ++ filename) =
          Mpm.alistGet fs (destDir ++ "/" ++ filename) ∧
        Mpm.alistGet (Mpm.downloadFileModrinth env sched filename destDir
            tmpPath expectedHash barID fs).fs tmpPath = none)) ∧
    (Mpm.downloadFileModrinth env sched filename destDir tmpPath "" barID
        fs).outcome = Except.ok () := by
  subst hsched
  constructor
  · intro expectedHash hne
    by_cases heq : Mpm.eqFold (env.hashHex bytes) expectedHash = true
    · refine ⟨⟨fun _ => heq, fun _ => ?_⟩, fun hf => ?_⟩
      · simp [Mpm.downloadFileModrinth, hnoskip, hstream, heq]
      · rw [heq] at hf
        exact Bool.noConfusion hf
    · have hfalse : Mpm.eqFold (env.hashHex bytes) expectedHash = false := by
        simpa using heq
      have hout : (Mpm.downloadFileModrinth env ⟨true, none, true, true, none⟩
          filename destDir tmpPath expectedHash barID fs).outcome =
          Except.error (Mpm.DlErr.checksumMismatch expectedHash
            (env.hashHex bytes) filename) := by
        simp [Mpm.downloadFileModrinth, hnoskip, hstream, hne, hfalse]
      have hfs : (Mpm.downloadFileModrinth env ⟨true, none, true, true, none⟩
          filename destDir tmpPath expectedHash barID fs).fs =
          Mpm.alistRemove (Mpm.alistSet fs tmpPath bytes) tmpPath := by
        simp [Mpm.downloadFileModrinth, hnoskip, hstream, hne, hfalse]
      refine ⟨⟨fun hok => ?_, fun ht => absurd ht heq⟩, fun _ => ?_⟩
      · rw [hout] at hok
        exact Except.noConfusion hok
      · refine ⟨hout, ?_, ?_⟩
        · rw [hfs]
          exact (Mpm.alistGet_discard fs tmpPath _ bytes htmp).1
        · rw [hfs]
          exact (Mpm.alistGet_discard fs tmpPath _ bytes htmp).2
  · simp [Mpm.downloadFileModrinth, hnoskip, hstream]

/-- Witness for C1: a concrete fetch of one byte whose digest reads
`"ab"` against the corrupted expected digest `"zz"` fails with the
checksum error naming all three components. -/
theorem downloadFile_checksum_iff_witness :
    (Mpm.downloadFileModrinth ⟨true, fun _ => "ab", some [1], 1⟩
        ⟨true, none, true, true, none⟩ "a.jar" "plugins" "plugins/t.tmp" "zz"
        0 []).outcome =
      Except.error (Mpm.DlErr.checksumMismatch "zz" "ab" "a.jar") :=
  (((downloadFile_checksum_iff ⟨true, fun _ => "ab", some [1], 1⟩
      ⟨true, none, true, true, none⟩ "a.jar" "plugins" "plugins/t.tmp" 0 []
      [1] rfl (by decide) rfl (by decide)).1 "zz" (by decide)).2
      (by decide)).1

/-- C2: a fetch whose destination already exists with force unset makes
no network call, leaves the filesystem unchanged, reports the download
as already complete on its progress bar, returns success, and a second
run returns the identical result; the Hangar download behaves
identically. -/
theorem downloadFile_skip_idempotent
    (env : Mpm.DlEnv) (sched : Mpm.DlSched)
    (filename destDir tmpPath expectedHash : String) (barID : Int)
    (fs : List (String × List Nat)) (prior : List Nat) (r : Mpm.DlResult)
    (hforce : env.force = false)
    (hexists : Mpm.alistGet fs (destDir ++ "/" ++ filename) = some prior)
    (hr : r = Mpm.downloadFileModrinth env sched filename destDir tmpPath
      expectedHash barID fs) :
    r.outcome = Except.ok () ∧ r.networkUsed = false ∧ r.fs = fs ∧
    (0 ≤ barID → r.events = [Mpm.PEvent.setTotal 1, Mpm.PEvent.update 1,
      Mpm.PEvent.finish]) ∧
    Mpm.downloadFileModrinth env sched filename destDir tmpPath expectedHash
      barID r.fs = r ∧
    Mpm.downloadFileHangar env sched filename destDir tmpPath expectedHash
      barID fs = r := by
  subst hr
  refine ⟨?_, ?_, ?_, ?_, ?_, ?_⟩
  · simp [Mpm.downloadFileModrinth, hforce, hexists]
  · simp [Mpm.downloadFileModrinth, hforce, hexists]
  · simp [Mpm.downloadFileModrinth, hforce, hexists]
  · intro hbar
    simp [Mpm.downloadFileModrinth, hforce, hexists, hbar]
  · simp [Mpm.downloadFileModrinth, hforce, hexists]
  · simp [Mpm.downloadFileModrinth, Mpm.downloadFileHangar, hforce, hexists]

/-- Witness for C2 at a concrete pre-existing destination. -/
theorem downloadFile_skip_idempotent_witness :
    (Mpm.downloadFileModrinth ⟨false, fun _ => "h", some [1], 1⟩
        ⟨true, none, true, true, none⟩ "a.jar" "plugins" "plugins/t.tmp" "x"
        0 [("plugins/a.jar", [9])]).outcome = Except.ok () ∧
    (Mpm.downloadFileModrinth ⟨false, fun _ => "h", some [1], 1⟩
        ⟨true, none, true, true, none⟩ "a.jar" "plugins" "plugins/t.tmp" "x"
        0 [("plugins/a.jar", [9])]).networkUsed = false :=
  ⟨(downloadFile_skip_idempotent ⟨false, fun _ => "h", some [1], 1⟩
      ⟨true, none, true, true, none⟩ "a.jar" "plugins" "plugins/t.tmp" "x" 0
      [("plugins/a.jar", [9])] [9] _ rfl (by decide) rfl).1,
   (downloadFile_skip_idempotent ⟨false, fun _ => "h", some [1], 1⟩
      ⟨true, none, true, true, none⟩ "a.jar" "plugins" "plugins/t.tmp" "x" 0
      [("plugins/a.jar", [9])] [9] _ rfl (by decide) rfl).2.1⟩

/-- C5 counterexample: with the rename forced to fail and the fallback
copy interrupted after one of two bytes, the download fails but leaves
`plugins/Foo.jar` holding the strict prefix `[7]` of the streamed
`[7, 8]` — a truncated partial file at the destination. -/
theorem fallback_copy_partial_file :
    (Mpm.downloadFileModrinth ⟨false, fun _ => "aa", some [7, 8], 2⟩
        ⟨true, none, false, true, some 1⟩ "Foo.jar" "plugins"
        "plugins/mpm-download-0.tmp" "" 0 []).outcome =
      Except.error Mpm.DlErr.copyFailed ∧
    Mpm.alistGet (Mpm.downloadFileModrinth ⟨false, fun _ => "aa", some [7, 8], 2⟩
        ⟨true, none, false, true, some 1⟩ "Foo.jar" "plugins"
        "plugins/mpm-download-0.tmp" "" 0 []).fs "plugins/Foo.jar" =
      some [7] := by
  constructor
  · decide
  · decide

/-- C5 (amended): the engine stages into the temp path and never leaves
it behind; on the rename path the publish is atomic — any failure leaves
the destination exactly as before, success installs the full streamed
bytes; when the rename fails, a fallback copy that runs to completion
also installs the full bytes; only an interrupted fallback copy can
leave a partial destination (see the counterexample). -/
theorem publish_atomic_on_rename_path
    (env : Mpm.DlEnv) (sched : Mpm.DlSched)
    (filename destDir tmpPath expectedHash : String) (barID : Int)
    (fs : List (String × List Nat)) (bytes : List Nat) (r : Mpm.DlResult)
    (hstream : env.stream = some bytes)
    (hnoskip : ¬(env.force = false ∧
      (Mpm.alistGet fs (destDir ++ "/" ++ filename)).isSome = true))
    (hfresh : Mpm.alistGet fs tmpPath = none)
    (htmp : tmpPath ≠ destDir ++ "/" ++ filename)
    (hr : r = Mpm.downloadFileModrinth env sched filename destDir tmpPath
      expectedHash barID fs) :
    Mpm.alistGet r.fs tmpPath = none ∧
    (sched.renameOk = true →
      (r.outcome = Except.ok () →
        Mpm.alistGet r.fs (destDir ++ "/" ++ filename) = some bytes) ∧
      (∀ e, r.outcome = Except.error e →
        Mpm.alistGet r.fs (destDir ++ "/" ++ filename) =
          Mpm.alistGet fs (destDir ++ "/" ++ filename))) ∧
    (sched.renameOk = false → sched.tmpCreateOk = true →
      sched.streamInterrupt = none → sched.createDestOk = true →
      sched.copyInterrupt = none →
      ¬(expectedHash ≠ "" ∧
        Mpm.eqFold (env.hashHex bytes) expectedHash = false) →
      r.outcome = Except.ok () ∧
      Mpm.alistGet r.fs (destDir ++ "/" ++ filename) = some bytes) := by
  subst hr
  refine ⟨?_, ?_, ?_⟩
  · by_cases htc : sched.tmpCreateOk = false
    · have hfs : (Mpm.downloadFileModrinth env sched filename destDir tmpPath
          expectedHash barID fs).fs = fs := by
        simp [Mpm.downloadFileModrinth, hnoskip, hstream, htc]
      rw [hfs]
      exact hfresh
    · cases hsi : sched.streamInterrupt with
      | some k =>
        have hfs : (Mpm.downloadFileModrinth env sched filename destDir
            tmpPath expectedHash barID fs).fs =
            Mpm.alistRemove (Mpm.alistSet fs tmpPath (bytes.take k)) tmpPath := by
          simp [Mpm.downloadFileModrinth, hnoskip, hstream, htc, hsi]
        rw [hfs]
        exact (Mpm.alistGet_discard fs tmpPath _ _ htmp).2
      | none =>
        by_cases hmis : expectedHash ≠ "" ∧
            Mpm.eqFold (env.hashHex bytes) expectedHash = false
        · have hfs : (Mpm.downloadFileModrinth env sched filename destDir
              tmpPath expectedHash barID fs).fs =
              Mpm.alistRemove (Mpm.alistSet fs tmpPath bytes) tmpPath := by
            simp [Mpm.downloadFileModrinth, hnoskip, hstream, htc, hsi, hmis]
          rw [hfs]
          exact (Mpm.alistGet_discard fs tmpPath _ _ htmp).2
        · by_cases hrn : sched.renameOk = true
          · have hfs : (Mpm.downloadFileModrinth env sched filename destDir
                tmpPath expectedHash barID fs).fs =
                Mpm.alistSet (Mpm.alistRemove (Mpm.alistSet fs tmpPath bytes)
                  tmpPath) (destDir ++ "/" ++ filename) bytes := by
              simp [Mpm.downloadFileModrinth, hnoskip, hstream, htc, hsi,
                hmis, hrn]
            rw [hfs]
            exact (Mpm.alistGet_publish fs tmpPath _ bytes bytes htmp).2
          · by_cases hcd : sched.createDestOk = false
            · have hfs : (Mpm.downloadFileModrinth env sched filename destDir
                  tmpPath expectedHash barID fs).fs =
                  Mpm.alistRemove (Mpm.alistSet fs tmpPath bytes) tmpPath := by
                simp [Mpm.downloadFileModrinth, hnoskip, hstream, htc, hsi,
                  hmis, hrn, hcd]
              rw [hfs]
              exact (Mpm.alistGet_discard fs tmpPath _ _ htmp).2
            · cases hci : sched.copyInterrupt with
              | some k =>
                have hfs : (Mpm.downloadFileModrinth env sched filename
                    destDir tmpPath expectedHash barID fs).fs =
                    Mpm.alistSet (Mpm.alistRemove (Mpm.alistSet fs tmpPath
                      bytes) tmpPath) (destDir ++ "/" ++ filename)
                      (bytes.take k) := by
                  simp [Mpm.downloadFileModrinth, hnoskip, hstream, htc, hsi,
                    hmis, hrn, hcd, hci]
                rw [hfs]
                exact (Mpm.alistGet_publish fs tmpPath _ bytes _ htmp).2
              | none =>
                have hfs : (Mpm.downloadFileModrinth env sched filename
                    destDir tmpPath expectedHash barID fs).fs =
                    Mpm.alistSet (Mpm.alistRemove (Mpm.alistSet fs tmpPath
                      bytes) tmpPath) (destDir ++ "/" ++ filename) bytes := by
                  simp [Mpm.downloadFileModrinth, hnoskip, hstream, htc, hsi,
                    hmis, hrn, hcd, hci]
                rw [hfs]
                exact (Mpm.alistGet_publish fs tmpPath _ bytes bytes htmp).2
  · intro hrn
    constructor
    · intro hok
      obtain ⟨b, hb, _, hdest⟩ := Mpm.downloadFileModrinth_ok_characterization
        env sched filename destDir tmpPath expectedHash barID fs hnoskip hok
        htmp
      rw [hstream] at hb
      cases hb
      exact hdest
    · intro e herr
      by_cases htc : sched.tmpCreateOk = false
      · have hfs : (Mpm.downloadFileModrinth env sched filename destDir
            tmpPath expectedHash barID fs).fs = fs := by
          simp [Mpm.downloadFileModrinth, hnoskip, hstream, htc]
        rw [hfs]
      · cases hsi : sched.streamInterrupt with
        | some k =>
          have hfs : (Mpm.downloadFileModrinth env sched filename destDir
              tmpPath expectedHash barID fs).fs =
              Mpm.alistRemove (Mpm.alistSet fs tmpPath (bytes.take k))
                tmpPath := by
            simp [Mpm.downloadFileModrinth, hnoskip, hstream, htc, hsi]
          rw [hfs]
          exact (Mpm.alistGet_discard fs tmpPath _ _ htmp).1
        | none =>
          by_cases hmis : expectedHash ≠ "" ∧
              Mpm.eqFold (env.hashHex bytes) expectedHash = false
          · have hfs : (Mpm.downloadFileModrinth env sched filename destDir
                tmpPath expectedHash barID fs).fs =
                Mpm.alistRemove (Mpm.alistSet fs tmpPath bytes) tmpPath := by
              simp [Mpm.downloadFileModrinth, hnoskip, hstream, htc, hsi, hmis]
            rw [hfs]
            exact (Mpm.alistGet_discard fs tmpPath _ _ htmp).1
          · have hout : (Mpm.downloadFileModrinth env sched filename destDir
                tmpPath expectedHash barID fs).outcome = Except.ok () := by
              simp [Mpm.downloadFileModrinth, hnoskip, hstream, htc, hsi,
                hmis, hrn]
            rw [hout] at herr
            exact Except.noConfusion herr
  · intro hrn htc hsi hcd hci hmis
    have hrn' : sched.renameOk = true → False := by
      intro h
      rw [hrn] at h
      exact Bool.noConfusion h
    constructor
    · simp [Mpm.downloadFileModrinth, hnoskip, hstream, htc, hsi, hmis, hrn,
        hcd, hci]
    · have hfs : (Mpm.downloadFileModrinth env sched filename destDir tmpPath
          expectedHash barID fs).fs =
          Mpm.alistSet (Mpm.alistRemove (Mpm.alistSet fs tmpPath bytes)
            tmpPath) (destDir ++ "/" ++ filename) bytes := by
        simp [Mpm.downloadFileModrinth, hnoskip, hstream, htc, hsi, hmis, hrn,
          hcd, hci]
      rw [hfs]
      exact (Mpm.alistGet_publish fs tmpPath _ bytes bytes htmp).1

/-- Witness for C5: a concrete successful rename-path publish. -/
theorem publish_atomic_on_rename_path_witness :
    Mpm.alistGet (Mpm.downloadFileModrinth ⟨true, fun _ => "h", some [1, 2], 2⟩
        ⟨true, none, true, true, none⟩ "a.jar" "plugins" "plugins/t.tmp" "" 0
        []).fs "plugins/a.jar" = some [1, 2] :=
  ((publish_atomic_on_rename_path ⟨true, fun _ => "h", some [1, 2], 2⟩
      ⟨true, none, true, true, none⟩ "a.jar" "plugins" "plugins/t.tmp" "" 0 []
      [1, 2] _ rfl (by decide) (by decide) (by decide) rfl).2.1 rfl).1
    (by decide)

/-- C9 counterexample: an artifact whose destination file already exists
is skipped without verification, yet its lock entry records the
catalog's expected digest `"aa"`, while the bytes actually on disk
(`[1, 2, 3]`) hash to `"bb"` — the lock digest does not match the disk
contents even case-insensitively. -/
theorem lock_digest_mismatch_on_skip :
    (Mpm.runDownloadJob ⟨false, fun _ => "bb", some [9, 9], 2⟩
        ⟨true, none, true, true, none⟩ "plugins" "plugins/t.tmp" 0
        ⟨"Foo", "foo", "1.0", "Foo.jar", "aa"⟩
        [("plugins/Foo.jar", [1, 2, 3])] []).2.2 = none ∧
    Mpm.alistGet (Mpm.runDownloadJob ⟨false, fun _ => "bb", some [9, 9], 2⟩
        ⟨true, none, true, true, none⟩ "plugins" "plugins/t.tmp" 0
        ⟨"Foo", "foo", "1.0", "Foo.jar", "aa"⟩
        [("plugins/Foo.jar", [1, 2, 3])] []).2.1 "foo" =
      some ⟨"Foo", "1.0", "aa"⟩ ∧
    Mpm.alistGet (Mpm.runDownloadJob ⟨false, fun _ => "bb", some [9, 9], 2⟩
        ⟨true, none, true, true, none⟩ "plugins" "plugins/t.tmp" 0
        ⟨"Foo", "foo", "1.0", "Foo.jar", "aa"⟩
        [("plugins/Foo.jar", [1, 2, 3])] []).1 "plugins/Foo.jar" =
      some [1, 2, 3] ∧
    Mpm.eqFold ((fun (_ : List Nat) => "bb") [1, 2, 3]) "aa" = false := by
  refine ⟨?_, ?_, ?_, ?_⟩ <;> decide

/-- C9 (amended): a job that actually downloaded its file (destination
absent or force set) under a non-empty expected digest records exactly
one lock entry under its catalog key, holding that digest, and the bytes
put at the destination hash to the recorded digest up to case. -/
theorem lock_digest_matches_when_downloaded
    (env : Mpm.DlEnv) (sched : Mpm.DlSched) (pluginsDir tmpPath : String)
    (barID : Int) (t : Mpm.DownloadTask) (fs : List (String × List Nat))
    (locks : List (String × Mpm.PluginLock))
    (r : List (String × List Nat) × List (String × Mpm.PluginLock) ×
      Option Mpm.DlErr)
    (hnoskip : ¬(env.force = false ∧
      (Mpm.alistGet fs (pluginsDir ++ "/" ++ t.filename)).isSome = true))
    (hhash : t.expectedHash ≠ "")
    (htmp : tmpPath ≠ pluginsDir ++ "/" ++ t.filename)
    (hr : r = Mpm.runDownloadJob env sched pluginsDir tmpPath barID t fs locks)
    (hok : r.2.2 = none) :
    Mpm.alistGet r.2.1 t.lockKey =
      some ⟨t.pluginName, t.version, t.expectedHash⟩ ∧
    ((r.2.1).filter (fun e => e.1 == t.lockKey)).length = 1 ∧
    ∃ bytes, env.stream = some bytes ∧
      Mpm.alistGet r.1 (pluginsDir ++ "/" ++ t.filename) = some bytes ∧
      Mpm.eqFold (env.hashHex bytes) t.expectedHash = true := by
  subst hr
  have hout : (Mpm.downloadFileModrinth env sched t.filename pluginsDir
      tmpPath t.expectedHash barID fs).outcome = Except.ok () := by
    cases hdl : (Mpm.downloadFileModrinth env sched t.filename pluginsDir
        tmpPath t.expectedHash barID fs).outcome with
    | ok u =>
      cases u
      rfl
    | error e =>
      have : (Mpm.runDownloadJob env sched pluginsDir tmpPath barID t fs
          locks).2.2 = some e := by
        simp [Mpm.runDownloadJob, hdl]
      rw [this] at hok
      exact Option.noConfusion hok
  have h1 : (Mpm.runDownloadJob env sched pluginsDir tmpPath barID t fs
      locks).2.1 = Mpm.alistSet locks t.lockKey
        ⟨t.pluginName, t.version, t.expectedHash⟩ := by
    simp [Mpm.runDownloadJob, hout]
  have h2 : (Mpm.runDownloadJob env sched pluginsDir tmpPath barID t fs
      locks).1 = (Mpm.downloadFileModrinth env sched t.filename pluginsDir
        tmpPath t.expectedHash barID fs).fs := by
    simp [Mpm.runDownloadJob, hout]
  obtain ⟨bytes, hb, hver, hdest⟩ :=
    Mpm.downloadFileModrinth_ok_characterization env sched t.filename
      pluginsDir tmpPath t.expectedHash barID fs hnoskip hout htmp
  refine ⟨?_, ?_, bytes, hb, ?_, hver hhash⟩
  · rw [h1]
    exact Mpm.alistGet_set_self _ _ _
  · rw [h1]
    exact Mpm.filter_alistSet_self _ _ _
  · rw [h2]
    exact hdest

/-- Witness for C9: a concrete downloaded-and-recorded artifact whose
lock digest matches the destination bytes' digest. -/
theorem lock_digest_matches_when_downloaded_witness :
    Mpm.alistGet (Mpm.runDownloadJob ⟨true, fun _ => "aa", some [5], 1⟩
        ⟨true, none, true, true, none⟩ "plugins" "plugins/t.tmp" 0
        ⟨"Foo", "foo", "1.0", "Foo.jar", "AA"⟩ [] []).2.1 "foo" =
      some ⟨"Foo", "1.0", "AA"⟩ :=
  (lock_digest_matches_when_downloaded ⟨true, fun _ => "aa", some [5], 1⟩
      ⟨true, none, true, true, none⟩ "plugins" "plugins/t.tmp" 0
      ⟨"Foo", "foo", "1.0", "Foo.jar", "AA"⟩ [] [] _ (by decide) (by decide)
      (by decide) rfl (by decide)).1

/-- C4: with a `"latest"` or empty constraint the selector returns the
element at position 0 of the candidate list as given (no reordering);
with a pinned label it linear-scans for an exact match, returning a
version carrying that label when one exists and nothing otherwise; and
in the batch metadata loop a plugin whose pinned label is not found is
reported as a failure and skipped while the remaining plugins still
produce their tasks. -/
theorem version_selection_semantics :
    (∀ (v : Mpm.ModrinthVersion) (vs : List Mpm.ModrinthVersion),
      Mpm.selectModrinthVersion "latest" (v :: vs) = some v ∧
      Mpm.selectModrinthVersion "" (v :: vs) = some v) ∧
    (∀ (c : String) (vs : List Mpm.ModrinthVersion),
      c ≠ "" → c ≠ "latest" →
      ((∃ w ∈ vs, w.versionNumber = c) →
        ∃ w, Mpm.selectModrinthVersion c vs = some w ∧ w.versionNumber = c) ∧
      ((∀ w ∈ vs, w.versionNumber ≠ c) →
        Mpm.selectModrinthVersion c vs = none)) ∧
    (∀ (versionsOf : String → List Mpm.ModrinthVersion) (p : Mpm.Plugin)
        (rest : List Mpm.Plugin),
      (versionsOf p.modrinthID).isEmpty = false →
      Mpm.selectModrinthVersion p.version (versionsOf p.modrinthID) = none →
      (Mpm.buildTasks versionsOf (p :: rest)).1 =
        (Mpm.buildTasks versionsOf rest).1 ∧
      (Mpm.buildTasks versionsOf (p :: rest)).2 =
        ("Version " ++ p.version ++ " not found for " ++ p.name) ::
          (Mpm.buildTasks versionsOf rest).2) := by
  refine ⟨?_, ?_, ?_⟩
  · intro v vs
    constructor <;> simp [Mpm.selectModrinthVersion]
  · intro c vs hc1 hc2
    constructor
    · rintro ⟨w, hw, hwc⟩
      have hs : (vs.find? (fun v => v.versionNumber == c)).isSome := by
        rw [List.find?_isSome]
        exact ⟨w, hw, by simp [hwc]⟩
      obtain ⟨w', hw'⟩ := Option.isSome_iff_exists.mp hs
      refine ⟨w', ?_, ?_⟩
      · simp [Mpm.selectModrinthVersion, hc1, hc2, hw']
      · simpa using List.find?_some hw'
    · intro hall
      have : vs.find? (fun v => v.versionNumber == c) = none :=
        List.find?_eq_none.mpr (fun w hw => by simpa using hall w hw)
      simp [Mpm.selectModrinthVersion, hc1, hc2, this]
  · intro versionsOf p rest hne hsel
    constructor <;> simp [Mpm.buildTasks, hne, hsel]

/-- Witness for C4 at concrete inputs: `"latest"` over the unsorted list
`[3.0, 1.0, 2.0]` picks `3.0` (position 0), and the pinned label `9.9`
over `[3.0]` resolves to nothing. -/
theorem version_selection_semantics_witness :
    Mpm.selectModrinthVersion "latest"
        [⟨"3.0", []⟩, ⟨"1.0", []⟩, ⟨"2.0", []⟩] = some ⟨"3.0", []⟩ ∧
    Mpm.selectModrinthVersion "9.9" [⟨"3.0", []⟩] = none :=
  ⟨(version_selection_semantics.1 ⟨"3.0", []⟩ [⟨"1.0", []⟩, ⟨"2.0", []⟩]).1,
   (version_selection_semantics.2.1 "9.9" [⟨"3.0", []⟩]
      (by decide) (by decide)).2 (by decide)⟩

/-- C6 counterexample: the Modrinth client's non-2xx error does not
carry the response body — two responses with the same status and
different bodies produce the identical error value, which mentions only
the status code. -/
theorem modrinth_error_lacks_body :
    Mpm.ModrinthClient.SearchProjects ⟨500, "the raw response body"⟩
        (fun _ => none) =
      Mpm.ModrinthClient.SearchProjects ⟨500, "a different body"⟩
        (fun _ => none) ∧
    Mpm.ModrinthClient.SearchProjects ⟨500, "the raw response body"⟩
        (fun _ => none) = Except.error "API error: 500" :=
  ⟨rfl, rfl⟩

/-- C6 (amended): every catalog search, version-list or metadata call
that receives a non-200 response returns an error — never a successful
empty list; the Hangar client's error carries both the status code and
the raw body, while the Modrinth client's error carries the status code
only. -/
theorem non2xx_error_characterization (resp : Mpm.HttpResponse)
    (h : resp.status ≠ 200)
    (d1 : String → Option (List Mpm.ModrinthProject))
    (d2 : String → Option Mpm.ModrinthProject)
    (d3 : String → Option (List Mpm.ModrinthVersion))
    (d4 : String → Option (List Mpm.HangarProject))
    (d5 : String → Option Mpm.HangarProject)
    (d6 : String → Option (List Mpm.HangarVersion))
    (gameVersion platform : String) :
    Mpm.ModrinthClient.SearchProjects resp d1 =
      Except.error ("API error: " ++ toString resp.status) ∧
    Mpm.ModrinthClient.GetProject resp d2 =
      Except.error ("API error: " ++ toString resp.status) ∧
    Mpm.ModrinthClient.GetProjectVersions resp d3 =
      Except.error ("API error: " ++ toString resp.status) ∧
    Mpm.HangarClient.SearchProjects resp d4 =
      Except.error ("API error: " ++ toString resp.status ++ " - " ++ resp.body) ∧
    Mpm.HangarClient.GetProject resp d5 =
      Except.error ("API error: " ++ toString resp.status ++ " - " ++ resp.body) ∧
    Mpm.HangarClient.GetProjectVersions resp d6 gameVersion platform =
      Except.error ("API error: " ++ toString resp.status ++ " - " ++ resp.body) := by
  refine ⟨?_, ?_, ?_, ?_, ?_, ?_⟩ <;>
    simp [Mpm.ModrinthClient.SearchProjects, Mpm.ModrinthClient.GetProject,
      Mpm.ModrinthClient.GetProjectVersions, Mpm.HangarClient.SearchProjects,
      Mpm.HangarClient.GetProject, Mpm.HangarClient.GetProjectVersions, h]

/-- Witness for C6 at a concrete 500 response. -/
theorem non2xx_error_characterization_witness :
    Mpm.ModrinthClient.SearchProjects ⟨500, "boom"⟩ (fun _ => none) =
      Except.error ("API error: " ++ toString 500) ∧
    Mpm.HangarClient.SearchProjects ⟨500, "boom"⟩ (fun _ => none) =
      Except.error ("API error: " ++ toString 500 ++ " - " ++ "boom") :=
  ⟨(non2xx_error_characterization ⟨500, "boom"⟩ (by decide) (fun _ => none)
      (fun _ => none) (fun _ => none) (fun _ => none) (fun _ => none)
      (fun _ => none) "" "").1,
   (non2xx_error_characterization ⟨500, "boom"⟩ (by decide) (fun _ => none)
      (fun _ => none) (fun _ => none) (fun _ => none) (fun _ => none)
      (fun _ => none) "" "").2.2.2.1⟩

/-- C3 counterexample: a target platform absent from the compatibility
table does not yield `(usable := true, exact := true)`.  Modrinth with
target `fabric` over candidate categories `["paper"]`, and Hangar with
target `sponge` over a supported-platform map containing `PAPER`, both
return `(false, false)`. -/
theorem compat_unknown_platform_counterexample :
    Mpm.ModrinthIsPluginCompatible ⟨["paper"]⟩ "fabric" = (false, false) ∧
    Mpm.HangarIsPluginCompatible ⟨[("PAPER", ["1.20.1"])]⟩ "sponge" =
      (false, false) := by
  constructor
  · decide
  · decide

/-- C3 (amended): for every candidate set, both compatibility checks
follow the per-platform exact/fallback tables — an exact key present
gives `(true, true)`, otherwise a fallback key present gives
`(true, false)`, otherwise `(false, false)` — and the empty target
platform is unconstrained; however, a target platform absent from the
table yields `(false, false)` (for Modrinth: unless the candidate set
contains the platform string itself, which counts as exact), and on
Hangar a Paper-fork target whose mapped `PAPER` key is present with a
non-empty version list is an exact match, the inexact fallback verdict
arising only when the key is present with an empty list. -/
theorem compat_verdict_characterization :
    (∀ (C : List String) (st : String),
      Mpm.ModrinthIsPluginCompatible ⟨C⟩ st =
        (if st = "" then (true, true)
         else Mpm.verdictFromTable (Mpm.modrinthExactKeys st)
           (Mpm.modrinthFallbackKeys st) C)) ∧
    (∀ (sp : List (String × List String)) (st : String),
      Mpm.HangarIsPluginCompatible ⟨sp⟩ st = Mpm.hangarVerdictModel sp st) :=
  ⟨Mpm.ModrinthIsPluginCompatible_eq_table, Mpm.HangarIsPluginCompatible_eq_model⟩

/-- C10: for every input string, `normalizePluginName` produces only
lower-case ASCII letters, ASCII digits, dashes and underscores (in
particular no spaces), and the function is idempotent. -/
theorem normalizePluginName_chars_and_idempotent (name : List Char) :
    (Mpm.normalizePluginName name).all Mpm.isNormalizedChar = true ∧
    Mpm.normalizePluginName (Mpm.normalizePluginName name) =
      Mpm.normalizePluginName name :=
  ⟨Mpm.normalizePluginName_all name, Mpm.normalizePluginName_idem name⟩
